import Mathlib

/-!
Verification of the RNAnorm between-sample normalization engine (UQ, TMM,
CUF, CTF) and the GTF union-exon gene-length resolver.

The Python source computes with IEEE floating point; the embedding models
finite float values by exact rationals `ℚ` (and exact reals `ℝ` where the
source takes base-2 logarithms and powers).  A float operation whose result
is not finite (NaN, or an infinity arising from division by zero) is
modelled by `none` in an `Option`-typed value; `none` propagates through
subsequent arithmetic exactly as NaN propagates in numpy.
-/

namespace RNAnorm

/-- A count matrix: rows are samples, columns are genes (numpy 2-D array
with finite entries, as enforced by `validate_data(..., ensure_all_finite=True)`). -/
abbrev Mat := List (List ℚ)

/-- Division as numpy performs it on finite floats: a zero divisor yields a
non-finite result (NaN for 0/0, ±inf otherwise), modelled as `none`. -/
def fdiv (a b : ℚ) : Option ℚ :=
  if b = 0 then none else some (a / b)

/-- Collects a list of possibly-NaN values; `none` (NaN) anywhere poisons
the whole list, as in numpy reductions without nan-handling. -/
def allSome {α : Type} : List (Option α) → Option (List α)
  | [] => some []
  | none :: _ => none
  | some a :: t => (allSome t).map (a :: ·)

/-- Sum of one column `j` of the matrix (`np.sum(X, axis=0)` at index `j`). -/
def colSum (X : Mat) (j : ℕ) : ℚ :=
  (X.map (fun r => r.getD j 0)).sum

/-- Number of gene columns of the (rectangular) matrix. -/
def nCols (X : Mat) : ℕ :=
  (X.headD []).length

/-- Indices of genes with a positive total count over all samples. -/
def keptGenes (X : Mat) : List ℕ :=
  (List.range (nCols X)).filter (fun j => 0 < colSum X j)

/-- Embeds `remove_zero_genes` (methods/between_sample.py lines 17-23):
keep exactly the columns whose column sum is positive.  Fancy indexing
`X[:, mask]` always produces a fresh array, so the caller's matrix is
never aliased. -/
def remove_zero_genes (X : Mat) : Mat :=
  X.map (fun r => (keptGenes X).map (fun j => r.getD j 0))

/-- Per-sample library size: the row sum (`LibrarySize`, methods/utils.py;
`np.nansum` over a finite row is the plain sum). -/
def library_size (r : List ℚ) : ℚ := r.sum

/-- Ascending sort of a row, playing the role of `np.sort` inside
`scipy.stats.scoreatpercentile`. -/
def sortQ (l : List ℚ) : List ℚ :=
  List.insertionSort (· ≤ ·) l

/-- Embeds `scipy.stats.scoreatpercentile(row, per=75)` with the default
interpolation: with `idx = 0.75 * (n - 1)` and `i = ⌊idx⌋`, the result is
the sorted value at `i` when `idx` is integral and otherwise the linear
interpolation `(i+1-idx) * s[i] + (idx-i) * s[i+1]`. -/
def scoreatpercentile75 (l : List ℚ) : ℚ :=
  let s := sortQ l
  let idx : ℚ := 3 * ((l.length : ℚ) - 1) / 4
  let i : ℕ := (⌊idx⌋).toNat
  if (⌊idx⌋ : ℚ) = idx then s.getD i 0
  else (((i : ℚ) + 1) - idx) * s.getD i 0 + (idx - (i : ℚ)) * s.getD (i + 1) 0

/-- Geometric mean of a list of rationals, as `scipy.stats.gmean` computes
it on nonnegative input: the n-th root of the product (`exp(mean(log a))`;
a zero entry drives the result to 0). -/
noncomputable def gmean (l : List ℚ) : ℝ :=
  ((l.map (fun (q : ℚ) => (q : ℝ))).prod) ^ (((l.length : ℝ))⁻¹)

/-- Geometric mean of a list of reals (same formula as `gmean`). -/
noncomputable def gmeanR (l : List ℝ) : ℝ :=
  (l.prod) ^ (((l.length : ℝ))⁻¹)

/-- Geometric mean of possibly-NaN rationals: NaN anywhere gives NaN. -/
noncomputable def gmeanOQ (l : List (Option ℚ)) : Option ℝ :=
  (allSome l).map gmean

/-- Geometric mean of possibly-NaN reals: NaN anywhere gives NaN. -/
noncomputable def gmeanOR (l : List (Option ℝ)) : Option ℝ :=
  (allSome l).map gmeanR

/-- Division of a possibly-NaN rational by a possibly-NaN real geometric
mean (float semantics: NaN operand or zero divisor gives a non-finite
result). -/
noncomputable def divQR (a : Option ℚ) (g : Option ℝ) : Option ℝ :=
  match a, g with
  | some a, some g => if g = 0 then none else some ((a : ℝ) / g)
  | _, _ => none

/-- Division of two possibly-NaN reals (same float semantics). -/
noncomputable def divOO (a g : Option ℝ) : Option ℝ :=
  match a, g with
  | some a, some g => if g = 0 then none else some (a / g)
  | _, _ => none

namespace UQ

/-- Embeds `UQ._get_norm_factors` (between_sample.py lines 73-92): drop
all-zero genes, then for each sample divide its 75th-percentile count by
its library size, both over the filtered columns. -/
def raw_factors (X : Mat) : List (Option ℚ) :=
  (remove_zero_genes X).map
    (fun row => fdiv (scoreatpercentile75 row) (library_size row))

/-- State stored by `UQ.fit` (the `geometric_mean_` attribute). -/
structure Fitted where
  geometric_mean_ : Option ℝ

/-- Embeds `UQ.fit` (lines 113-125): store the geometric mean of the raw
factors of the fitting matrix. -/
noncomputable def fit (X : Mat) : Fitted :=
  ⟨gmeanOQ (raw_factors X)⟩

/-- Embeds `UQ.get_norm_factors` (lines 94-106): raw factors of `X`
divided by the stored geometric mean. -/
noncomputable def get_norm_factors (st : Fitted) (X : Mat) : List (Option ℝ) :=
  (raw_factors X).map (fun a => divQR a st.geometric_mean_)

/-- One entry of the CPM-with-effective-library-size output:
`x / (lib * factor) * 1e6` with float non-finite results as `none`. -/
noncomputable def cpmEntry (x : ℚ) (lib : ℚ) (f : Option ℝ) : Option ℝ :=
  match f with
  | none => none
  | some fv => if (lib : ℝ) * fv = 0 then none else some ((x : ℝ) / ((lib : ℝ) * fv) * 1000000)

/-- Embeds `UQ.transform` (lines 127-142): CPM with effective library size
`library_size * factor`, scaled by 1e6.  Library sizes are taken on the
unfiltered input rows. -/
noncomputable def transform (st : Fitted) (X : Mat) : List (List (Option ℝ)) :=
  (X.zip (get_norm_factors st X)).map
    (fun p => p.1.map (fun x => cpmEntry x (library_size p.1) p.2))

end UQ

namespace CUF

/-- One entry of the CUF output: the raw count divided by the factor. -/
noncomputable def divEntry (x : ℚ) (f : Option ℝ) : Option ℝ :=
  match f with
  | none => none
  | some fv => if fv = 0 then none else some ((x : ℝ) / fv)

/-- Embeds `CUF.transform` (lines 176-187): raw counts divided by the UQ
normalization factors, with no library-size step and no 1e6 scaling. -/
noncomputable def transform (st : UQ.Fitted) (X : Mat) : List (List (Option ℝ)) :=
  (X.zip (UQ.get_norm_factors st X)).map
    (fun p => p.1.map (fun x => divEntry x p.2))

end CUF

/-- Embeds `scipy.stats.rankdata(l)` with the default average-rank tie
handling, evaluated at one value `x`: the count of strictly smaller
entries plus half of (count of equal entries plus one). -/
def rankdata {α : Type} [LinearOrder α] (l : List α) (x : α) : ℚ :=
  (l.countP (fun y => y < x) : ℚ) + ((l.countP (fun y => y = x) : ℚ) + 1) / 2

/-- Index of the first minimum of a list (`np.argmin`): the first position
holding an element that is less than or equal to every element. -/
def firstMinIdx {α : Type} [LinearOrder α] (l : List α) : ℕ :=
  l.findIdx (fun x => decide (∀ y ∈ l, x ≤ y))

/-- Arithmetic mean of a list of reals (`np.mean`). -/
noncomputable def meanR (l : List ℝ) : ℝ := l.sum / l.length

/-- Arithmetic mean of a list of rationals. -/
def meanQ (l : List ℚ) : ℚ := l.sum / l.length

namespace TMM

/-- One gene of one sample survives the finiteness filter
`np.isfinite(mm) & np.isfinite(aa)` (between_sample.py line 296) exactly
when, in float arithmetic, its M and A values are finite: the count and
the reference count are nonzero (zeros were replaced by NaN on lines
266-270) and the product of the two count/library-size ratios is positive
(otherwise the base-2 logarithms are NaN or ±inf).  `p.1` is the sample's
count of the gene, `p.2` the reference sample's count. -/
def finite_gene (lib libRef : ℚ) (p : ℚ × ℚ) : Prop :=
  p.1 ≠ 0 ∧ p.2 ≠ 0 ∧ 0 < (p.1 / lib) * (p.2 / libRef)

instance (lib libRef : ℚ) (p : ℚ × ℚ) : Decidable (finite_gene lib libRef p) := by
  unfold finite_gene; infer_instance

/-- The ratio `r / r_ref` of which the gene's M value is the base-2 log. -/
def m_quot (lib libRef : ℚ) (p : ℚ × ℚ) : ℚ :=
  (p.1 / lib) / (p.2 / libRef)

/-- The product `r * r_ref` of which the gene's A value is half the
base-2 log. -/
def a_prod (lib libRef : ℚ) (p : ℚ × ℚ) : ℚ :=
  (p.1 / lib) * (p.2 / libRef)

/-- The gene's approximate asymptotic variance
`w = (1 - r) / count + (1 - r_ref) / count_ref` (line 284). -/
def w_val (lib libRef : ℚ) (p : ℚ × ℚ) : ℚ :=
  (1 - p.1 / lib) / p.1 + (1 - p.2 / libRef) / p.2

/-- Genes of one sample that survive the finiteness filter (line 296-299),
still paired with the reference counts. -/
def finite_genes (lib libRef : ℚ) (pairs : List (ℚ × ℚ)) : List (ℚ × ℚ) :=
  pairs.filter (fun p => decide (finite_gene lib libRef p))

/-- Gene-wise M values `log2(r / r_ref)` of the filtered genes (line 279). -/
noncomputable def m_vals (lib libRef : ℚ) (pairs : List (ℚ × ℚ)) : List ℝ :=
  (finite_genes lib libRef pairs).map (fun p => Real.logb 2 ((m_quot lib libRef p : ℝ)))

/-- Gene-wise A values `log2(r * r_ref) / 2` of the filtered genes (line 282). -/
noncomputable def a_vals (lib libRef : ℚ) (pairs : List (ℚ × ℚ)) : List ℝ :=
  (finite_genes lib libRef pairs).map (fun p => Real.logb 2 ((a_prod lib libRef p : ℝ)) / 2)

/-- Variance weights of the filtered genes. -/
def w_vals (lib libRef : ℚ) (pairs : List (ℚ × ℚ)) : List ℚ :=
  (finite_genes lib libRef pairs).map (w_val lib libRef)

/-- The `keep` mask of line 309-312 for the filtered gene at position `i`:
both the average-tie rank of its M value and the average-tie rank of its A
value lie between `floor(n * trim) + 1` and `n - (floor(n * trim) + 1) + 1`. -/
noncomputable def keep (m_trim a_trim lib libRef : ℚ) (pairs : List (ℚ × ℚ)) (i : ℕ) : Prop :=
  let mv := m_vals lib libRef pairs
  let av := a_vals lib libRef pairs
  let n := (finite_genes lib libRef pairs).length
  let m_low : ℚ := ⌊(n : ℚ) * m_trim⌋ + 1
  let m_high : ℚ := (n : ℚ) - m_low + 1
  let a_low : ℚ := ⌊(n : ℚ) * a_trim⌋ + 1
  let a_high : ℚ := (n : ℚ) - a_low + 1
  m_low ≤ rankdata mv (mv.getD i 0) ∧ rankdata mv (mv.getD i 0) ≤ m_high ∧
    a_low ≤ rankdata av (av.getD i 0) ∧ rankdata av (av.getD i 0) ≤ a_high

open scoped Classical in
/-- The numerator `np.nansum(keep * mm / ww)` of line 317: the sum of
`M / w` over the kept genes. -/
noncomputable def factor_num (m_trim a_trim lib libRef : ℚ) (pairs : List (ℚ × ℚ)) : ℝ :=
  ((List.range (finite_genes lib libRef pairs).length).map (fun i =>
    if keep m_trim a_trim lib libRef pairs i then
      (m_vals lib libRef pairs).getD i 0 / (((w_vals lib libRef pairs).getD i 0 : ℚ) : ℝ)
    else 0)).sum

open scoped Classical in
/-- The denominator `np.nansum(keep / ww)` of line 317: the sum of `1 / w`
over the kept genes. -/
noncomputable def factor_den (m_trim a_trim lib libRef : ℚ) (pairs : List (ℚ × ℚ)) : ℚ :=
  ((List.range (finite_genes lib libRef pairs).length).map (fun i =>
    if keep m_trim a_trim lib libRef pairs i then 1 / (w_vals lib libRef pairs).getD i 0
    else 0)).sum

/-- Embeds the per-sample loop body of `TMM._get_norm_factors` (lines
291-320): filter non-finite genes, rank-trim on M and A, then return
`2 ** (Σ keep * M / w / Σ keep / w)`.  The weights `w` are divided into M,
not multiplied.  A zero denominator makes the float quotient non-finite
(NaN when the numerator is also zero, as happens when no gene is kept),
modelled as `none`. -/
noncomputable def sample_factor (m_trim a_trim lib libRef : ℚ) (pairs : List (ℚ × ℚ)) :
    Option ℝ :=
  if factor_den m_trim a_trim lib libRef pairs = 0 then none
  else some ((2 : ℝ) ^ (factor_num m_trim a_trim lib libRef pairs /
    ((factor_den m_trim a_trim lib libRef pairs : ℚ) : ℝ)))

/-- Embeds `TMM._get_norm_factors` (lines 251-322): drop all-zero genes of
the current matrix, compute library sizes of the filtered matrix and of
the frozen reference, then apply the per-sample factor computation. -/
noncomputable def _get_norm_factors (m_trim a_trim : ℚ) (ref : List ℚ) (X : Mat) :
    List (Option ℝ) :=
  let Xf := remove_zero_genes X
  Xf.map (fun row =>
    sample_factor m_trim a_trim (library_size row) (library_size ref) (row.zip ref))

/-- State stored by `TMM.fit`: the trim parameters, the frozen reference
sample `ref_` and the stored geometric mean. -/
structure Fitted where
  m_trim : ℚ
  a_trim : ℚ
  ref_ : List ℚ
  geometric_mean_ : Option ℝ

/-- Embeds `TMM._get_ref` (lines 346-350) applied to the already filtered
fitting matrix: the index `np.argmin(np.fabs(f75 - np.mean(f75)))` of the
sample whose UQ factor is closest to the mean UQ factor (first index on
ties).  If some UQ factor is NaN the argmin over floats is unspecified
here and the embedding returns index 0. -/
noncomputable def _get_ref_index (X : Mat) : ℕ :=
  match allSome (UQ.get_norm_factors (UQ.fit X) X) with
  | some fs => firstMinIdx (fs.map (fun v => |v - meanR fs|))
  | none => 0

/-- Embeds `TMM.fit` (lines 352-367): validate, drop all-zero genes, store
the reference sample and the geometric mean of the raw factors. -/
noncomputable def fit (m_trim a_trim : ℚ) (X : Mat) : Fitted :=
  let Xf := remove_zero_genes X
  let ref := Xf.getD (_get_ref_index Xf) []
  ⟨m_trim, a_trim, ref, gmeanOR (_get_norm_factors m_trim a_trim ref Xf)⟩

/-- Embeds `TMM.get_norm_factors` (lines 324-338): raw factors of `X`
divided by the stored geometric mean. -/
noncomputable def get_norm_factors (st : Fitted) (X : Mat) : List (Option ℝ) :=
  (_get_norm_factors st.m_trim st.a_trim st.ref_ X).map (fun f => divOO f st.geometric_mean_)

/-- One entry of the TMM transform output (same CPM-with-effective-library
formula as UQ). -/
noncomputable def cpmEntryR (x : ℚ) (lib : ℚ) (f : Option ℝ) : Option ℝ :=
  match f with
  | none => none
  | some fv => if (lib : ℝ) * fv = 0 then none else some ((x : ℝ) / ((lib : ℝ) * fv) * 1000000)

/-- Embeds `TMM.transform` (lines 369-388). -/
noncomputable def transform (st : Fitted) (X : Mat) : List (List (Option ℝ)) :=
  (X.zip (get_norm_factors st X)).map
    (fun p => p.1.map (fun x => cpmEntryR x (library_size p.1) p.2))

end TMM

namespace CTF

/-- Embeds `CTF.transform` (lines 426-441): raw counts divided by the TMM
normalization factors, with no library-size step and no 1e6 scaling. -/
noncomputable def transform (st : TMM.Fitted) (X : Mat) : List (List (Option ℝ)) :=
  (X.zip (TMM.get_norm_factors st X)).map
    (fun p => p.1.map (fun x => CUF.divEntry x p.2))

end CTF

namespace GTF

/-- One exon row of a GTF file, already restricted to the columns the
parser reads: gene identifier (modelled by an arbitrary decidable type),
chromosome and strand (likewise), and the 1-based inclusive genomic start
and stop positions. -/
structure ExonRow (γ κ : Type) where
  gid : γ
  chrom : κ
  strand : κ
  start : ℤ
  stop : ℤ

/-- The interval the parser derives from a row (`_parse_gtf`): `start` is
kept and `end` becomes `stop + 1` because GTF is 1-based and includes the
stop position. -/
def parsedInterval {γ κ : Type} (r : ExonRow γ κ) : ℤ × ℤ :=
  (r.start, r.stop + 1)

/-- Sort intervals by start position (`exons[exons[:, 0].argsort()]`). -/
def sortExons (l : List (ℤ × ℤ)) : List (ℤ × ℤ) :=
  List.insertionSort (fun a b => a.1 ≤ b.1) l

/-- One step of the rolling union of `_compute_union_exon_length`:
state is (accumulated length, end of the rolling union). -/
def unionStep (st : ℤ × ℤ) (exon : ℤ × ℤ) : ℤ × ℤ :=
  if exon.2 > st.2 then
    (if exon.1 > st.2 then (st.1 + (exon.2 - exon.1), exon.2)
     else (st.1 + (exon.2 - st.2), exon.2))
  else st

/-- Embeds `GTF._compute_union_exon_length` (lines 84-101 of the GTF
parsing module): sort the intervals of one (gene, chromosome, strand)
group by start and accumulate the length of the rolling union, starting
from length 0 and sentinel end -1. -/
def _compute_union_exon_length (starts_ends : List (ℤ × ℤ)) : ℤ :=
  ((sortExons starts_ends).foldl unionStep (0, -1)).1

/-- The grouping key of an exon row: (gene id, chromosome, strand). -/
def rowKey {γ κ : Type} (r : ExonRow γ κ) : γ × κ × κ :=
  (r.gid, r.chrom, r.strand)

/-- The distinct grouping keys occurring in a list of exon rows
(`groupby([gene_id, chromosome, strand])`). -/
def groupKeys {γ κ : Type} [DecidableEq γ] [DecidableEq κ] (rows : List (ExonRow γ κ)) :
    List (γ × κ × κ) :=
  (rows.map rowKey).dedup

/-- The parsed intervals of the rows sharing one grouping key. -/
def groupIntervals {γ κ : Type} [DecidableEq γ] [DecidableEq κ] (rows : List (ExonRow γ κ))
    (k : γ × κ × κ) : List (ℤ × ℤ) :=
  (rows.filter (fun r => decide (rowKey r = k))).map parsedInterval

/-- Embeds `GTF._gene_length` for a single gene id: union-exon length per
(gene, chromosome, strand) group, summed over the groups carrying that
gene id (`group_length.groupby(gene_id).sum()`). -/
def _gene_length {γ κ : Type} [DecidableEq γ] [DecidableEq κ] (rows : List (ExonRow γ κ))
    (g : γ) : ℤ :=
  (((groupKeys rows).filter (fun k => decide (k.1 = g))).map
    (fun k => _compute_union_exon_length (groupIntervals rows k))).sum

/-! Specification-side description of the union-exon merge (spec section
4.5): walk the sorted intervals keeping a list of disjoint merged
intervals, extending the last one when the next interval overlaps or abuts
it, and sum `end - start` over the merged intervals. -/

/-- Merge the sorted intervals following `cur`, the currently open merged
interval: an interval starting at or before the open end extends it to the
larger of the two ends, any other interval closes it and opens a new one. -/
def mergeRec : (ℤ × ℤ) → List (ℤ × ℤ) → List (ℤ × ℤ)
  | cur, [] => [cur]
  | cur, x :: t =>
      if x.1 ≤ cur.2 then mergeRec (cur.1, max cur.2 x.2) t else cur :: mergeRec x t

/-- The disjoint merged intervals of a sorted interval list. -/
def merge_intervals : List (ℤ × ℤ) → List (ℤ × ℤ)
  | [] => []
  | x :: t => mergeRec x t

/-- Sum of `end - start` over the merged intervals of a sorted list. -/
def merged_length (l : List (ℤ × ℤ)) : ℤ :=
  ((merge_intervals l).map (fun p => p.2 - p.1)).sum

instance : IsTotal (ℤ × ℤ) (fun a b => a.1 ≤ b.1) :=
  ⟨fun a b => le_total a.1 b.1⟩

instance : IsTrans (ℤ × ℤ) (fun a b => a.1 ≤ b.1) :=
  ⟨fun _ _ _ hab hbc => le_trans hab hbc⟩

lemma foldl_unionStep_eq (t : List (ℤ × ℤ)) : ∀ (cur : ℤ × ℤ) (c : ℤ),
    List.Chain' (fun a b => a.1 ≤ b.1) (cur :: t) → (∀ p ∈ t, p.1 ≤ p.2) → cur.1 ≤ cur.2 →
    (t.foldl unionStep (c, cur.2)).1 =
      c - (cur.2 - cur.1) + ((mergeRec cur t).map (fun p => p.2 - p.1)).sum := by
  induction t with
  | nil =>
      intro cur c _ _ _
      simp only [List.foldl_nil, mergeRec, List.map_cons, List.map_nil, List.sum_cons,
        List.sum_nil]
      ring
  | cons x t ih =>
      intro cur c hchain hwf hcur
      have hcx : cur.1 ≤ x.1 := (List.chain'_cons.mp hchain).1
      have hxt : List.Chain' (fun a b => a.1 ≤ b.1) (x :: t) := (List.chain'_cons.mp hchain).2
      have hx12 : x.1 ≤ x.2 := hwf x (by simp)
      have hwf' : ∀ p ∈ t, p.1 ≤ p.2 := fun p hp => hwf p (by simp [hp])
      by_cases hx2 : x.2 > cur.2
      · by_cases hx1 : x.1 > cur.2
        · have hstep : unionStep (c, cur.2) x = (c + (x.2 - x.1), x.2) := by
            simp [unionStep, hx2, hx1]
          have hmerge : mergeRec cur (x :: t) = cur :: mergeRec x t := by
            rw [mergeRec]
            simp [not_le.mpr hx1]
          rw [List.foldl_cons, hstep, hmerge]
          have := ih x (c + (x.2 - x.1)) hxt hwf' hx12
          rw [this]
          simp
          ring
        · push_neg at hx1
          have hstep : unionStep (c, cur.2) x = (c + (x.2 - cur.2), x.2) := by
            simp [unionStep, hx2, not_lt.mpr hx1]
          have hmax : max cur.2 x.2 = x.2 := max_eq_right (le_of_lt hx2)
          have hmerge : mergeRec cur (x :: t) = mergeRec (cur.1, x.2) t := by
            rw [mergeRec]
            simp [hx1, hmax]
          have hchain' : List.Chain' (fun a b => a.1 ≤ b.1) ((cur.1, x.2) :: t) := by
            cases t with
            | nil => simp
            | cons y t' =>
                have hxy : x.1 ≤ y.1 := (List.chain'_cons.mp hxt).1
                exact List.chain'_cons.mpr ⟨le_trans hcx hxy, (List.chain'_cons.mp hxt).2⟩
          have hcur' : (cur.1, x.2).1 ≤ (cur.1, x.2).2 := by
            simp only []
            exact le_trans hcur (le_of_lt hx2)
          rw [List.foldl_cons, hstep, hmerge]
          have := ih (cur.1, x.2) (c + (x.2 - cur.2)) hchain' hwf' hcur'
          simp only [] at this
          rw [this]
          ring
      · push_neg at hx2
        have hstep : unionStep (c, cur.2) x = (c, cur.2) := by
          simp [unionStep, not_lt.mpr hx2]
        have hmax : max cur.2 x.2 = cur.2 := max_eq_left hx2
        have hmerge : mergeRec cur (x :: t) = mergeRec cur t := by
          rw [mergeRec]
          simp [le_trans hx12 hx2, hmax]
        have hchain' : List.Chain' (fun a b => a.1 ≤ b.1) (cur :: t) := by
          cases t with
          | nil => simp
          | cons y t' =>
              have hxy : x.1 ≤ y.1 := (List.chain'_cons.mp hxt).1
              exact List.chain'_cons.mpr ⟨le_trans hcx hxy, (List.chain'_cons.mp hxt).2⟩
        rw [List.foldl_cons, hstep, hmerge]
        exact ih cur c hchain' hwf' hcur

/-- The rolling union of the source equals the merge-then-sum description
of the spec, on any interval list whose coordinates are nonnegative with
start at most end. -/
lemma union_length_eq_merged (es : List (ℤ × ℤ)) (hwf : ∀ p ∈ es, 0 ≤ p.1 ∧ p.1 ≤ p.2) :
    _compute_union_exon_length es = merged_length (sortExons es) := by
  have hperm : ∀ p ∈ sortExons es, p ∈ es := by
    intro p hp
    exact (List.perm_insertionSort (fun a b : ℤ × ℤ => a.1 ≤ b.1) es).subset
      (by simpa [sortExons] using hp)
  have hs : List.Sorted (fun a b : ℤ × ℤ => a.1 ≤ b.1) (sortExons es) :=
    List.sorted_insertionSort _ es
  have hchain : List.Chain' (fun a b : ℤ × ℤ => a.1 ≤ b.1) (sortExons es) := hs.chain'
  unfold _compute_union_exon_length merged_length
  cases hsort : sortExons es with
  | nil => simp [merge_intervals]
  | cons x t =>
      rw [hsort] at hchain hperm
      have hx : 0 ≤ x.1 ∧ x.1 ≤ x.2 := hwf x (hperm x (by simp))
      have hstep : unionStep (0, -1) x = (x.2 - x.1, x.2) := by
        have h1 : x.2 > -1 := by omega
        have h2 : x.1 > -1 := by omega
        simp [unionStep, h1, h2]
      rw [List.foldl_cons, hstep]
      have := foldl_unionStep_eq t x (x.2 - x.1) hchain
        (fun p hp => (hwf p (hperm p (by simp [hp]))).2) hx.2
      rw [this]
      simp [merge_intervals]

end GTF

/-- C5: with the 1-based inclusive GTF coordinates converted to half-open
intervals by `end := end + 1`, the rolling-union length of a
(gene, chromosome, strand) group equals the sum of `end - start` over the
disjoint intervals obtained by merging the sorted exon intervals; a gene's
length is that value summed over all of the gene's groups; and the two
exon rows declared as 2001-2700 and 2501-3000 merge to length exactly
1000. -/
theorem C5_gtf_union_exon_length :
    (∀ (es : List (ℤ × ℤ)), (∀ p ∈ es, 0 ≤ p.1 ∧ p.1 ≤ p.2) →
      GTF._compute_union_exon_length es = GTF.merged_length (GTF.sortExons es)) ∧
    (∀ (rows : List (GTF.ExonRow ℕ ℕ)) (g : ℕ),
      (∀ r ∈ rows, 0 ≤ r.start ∧ r.start ≤ r.stop) →
      GTF._gene_length rows g =
        (((GTF.groupKeys rows).filter (fun k => decide (k.1 = g))).map
          (fun k => GTF.merged_length (GTF.sortExons (GTF.groupIntervals rows k)))).sum) ∧
    GTF._gene_length
      ([⟨0, 0, 0, 2001, 2700⟩, ⟨0, 0, 0, 2501, 3000⟩] : List (GTF.ExonRow ℕ ℕ)) 0 = 1000 := by
  refine ⟨GTF.union_length_eq_merged, ?_, by decide⟩
  intro rows g hrows
  unfold GTF._gene_length
  refine congrArg List.sum (List.map_congr_left ?_)
  intro k _
  refine GTF.union_length_eq_merged _ ?_
  intro p hp
  rcases List.mem_map.mp hp with ⟨r, hr, hpr⟩
  have hr' : r ∈ rows := List.mem_of_mem_filter hr
  have := hrows r hr'
  rw [← hpr]
  unfold GTF.parsedInterval
  constructor
  · exact this.1
  · omega

/-- Witness for C5: the rolling union of the two concrete parsed intervals
agrees with the merged-interval sum, and the concrete gene length is 1000. -/
theorem C5_gtf_union_exon_length_witness :
    GTF._compute_union_exon_length [((2001 : ℤ), 2701), ((2501 : ℤ), 3001)] =
      GTF.merged_length (GTF.sortExons [((2001 : ℤ), 2701), ((2501 : ℤ), 3001)]) ∧
    GTF._gene_length
      ([⟨0, 0, 0, 2001, 2700⟩, ⟨0, 0, 0, 2501, 3000⟩] : List (GTF.ExonRow ℕ ℕ)) 0 = 1000 :=
  ⟨C5_gtf_union_exon_length.1 _ (by decide), C5_gtf_union_exon_length.2.2⟩

/-! Heap model used for the frame property of `TMM.transform` /
`TMM.get_norm_factors`: numpy arrays live in an explicit store, and the
embedding allocates or writes a store cell exactly where the source
allocates a fresh array (`X[:, mask]` fancy indexing, `.copy()`) or
mutates one in place (`arr[arr == 0] = np.nan`).  Array entries are
`Option ℚ` so that the in-place zero-to-NaN substitution is expressible. -/

/-- A stored numpy 2-D float array; `none` entries are NaN. -/
abbrev Cell := List (List (Option ℚ))

/-- The store of allocated arrays. -/
abbrev Heap := List Cell

/-- Read the array at a store position. -/
def readH (h : Heap) (p : ℕ) : Cell := h.getD p []

/-- Overwrite the array at a store position (in-place numpy mutation). -/
def writeH (h : Heap) (p : ℕ) (c : Cell) : Heap := h.set p c

/-- Allocate a fresh array and return its position. -/
def allocH (h : Heap) (c : Cell) : Heap × ℕ := (h ++ [c], h.length)

/-- A finite matrix of plain rationals as a store cell. -/
def toCell (X : Mat) : Cell := X.map (fun r => r.map some)

/-- Nan-propagating sum of a possibly-NaN row (`np.sum`). -/
def osum (l : List (Option ℚ)) : Option ℚ := (allSome l).map List.sum

/-- Whether a possibly-NaN column sum is positive; NaN compares false. -/
def posO : Option ℚ → Bool
  | some q => decide (0 < q)
  | none => false

/-- Column sum of a cell at index `j`. -/
def colSumC (c : Cell) (j : ℕ) : Option ℚ :=
  osum (c.map (fun r => r.getD j none))

/-- Cell-level `remove_zero_genes`. -/
def remove_zero_genes_cell (c : Cell) : Cell :=
  let kept := (List.range ((c.headD []).length)).filter (fun j => posO (colSumC c j))
  c.map (fun r => kept.map (fun j => r.getD j none))

/-- The in-place substitution `arr[arr == 0] = np.nan` (lines 266 and 270). -/
def substZeroNan (c : Cell) : Cell :=
  c.map (fun r => r.map (fun v => if v = some 0 then none else v))

/-- The explicit `.copy()` of line 269; copying the value is the identity,
the point is that the copy is allocated as a fresh cell. -/
def copyC (c : Cell) : Cell := c

namespace TMM

/-- The per-sample factor computed from possibly-NaN (substituted) rows:
genes whose count or reference count is NaN are exactly the genes the
finiteness filter discards. -/
noncomputable def sample_factor_cell (m_trim a_trim : ℚ) (lib libRef : Option ℚ)
    (xrow refrow : List (Option ℚ)) : Option ℝ :=
  match lib, libRef with
  | some l, some lr =>
      sample_factor m_trim a_trim l lr
        ((xrow.zip refrow).filterMap (fun p =>
          match p with
          | (some a, some b) => some (a, b)
          | _ => none))
  | _, _ => none

/-- Embeds the body of `TMM._get_norm_factors` (lines 251-322) against the
store: `refPtr` holds the frozen `self.ref_` (a single-row cell), `xPtr`
holds the caller's matrix.  Fresh cells are allocated for the fancy-index
filter result and for the reference copy; the zero-to-NaN substitutions
write only those fresh cells. -/
noncomputable def _get_norm_factors_heap (m_trim a_trim : ℚ) (h : Heap) (refPtr xPtr : ℕ) :
    Heap × List (Option ℝ) :=
  let al := allocH h (remove_zero_genes_cell (readH h xPtr))
  let h1 := al.1
  let xl := al.2
  let libs := (readH h1 xl).map osum
  let libRef := osum ((readH h1 refPtr).headD [])
  let h2 := writeH h1 xl (substZeroNan (readH h1 xl))
  let al2 := allocH h2 (copyC (readH h2 refPtr))
  let h3 := al2.1
  let rl := al2.2
  let h4 := writeH h3 rl (substZeroNan (readH h3 rl))
  let factors := ((readH h4 xl).zip libs).map
    (fun p => sample_factor_cell m_trim a_trim p.2 libRef p.1 ((readH h4 rl).headD []))
  (h4, factors)

/-- Embeds `TMM.get_norm_factors` against the store: normalize the raw
factors by the stored geometric mean (a float value, not an array). -/
noncomputable def get_norm_factors_heap (m_trim a_trim : ℚ) (gm : Option ℝ) (h : Heap)
    (refPtr xPtr : ℕ) : Heap × List (Option ℝ) :=
  let res := _get_norm_factors_heap m_trim a_trim h refPtr xPtr
  (res.1, res.2.map (fun f => divOO f gm))

/-- Embeds `TMM.transform` (lines 369-388) against the store: factors,
then CPM with effective library size read from the caller's matrix. -/
noncomputable def transform_heap (m_trim a_trim : ℚ) (gm : Option ℝ) (h : Heap)
    (refPtr xPtr : ℕ) : Heap × List (List (Option ℝ)) :=
  let res := get_norm_factors_heap m_trim a_trim gm h refPtr xPtr
  let h' := res.1
  let factors := res.2
  let out := ((readH h' xPtr).zip factors).map
    (fun p => p.1.map (fun x =>
      match x, osum p.1, p.2 with
      | some xv, some l, some fv =>
          if (l : ℝ) * fv = 0 then none else some ((xv : ℝ) / ((l : ℝ) * fv) * 1000000)
      | _, _, _ => none))
  (h', out)

end TMM

/-! Helper lemmas about `List.getD` on concatenation and update, used by
the store (heap) reasoning. -/

lemma getD_concat {α : Type} (l : List α) (a d : α) : (l ++ [a]).getD l.length d = a := by
  rw [List.getD_append_right _ _ _ _ le_rfl]
  simp

lemma getD_append_lt {α : Type} (l l' : List α) (d : α) (p : ℕ) (h : p < l.length) :
    (l ++ l').getD p d = l.getD p d :=
  List.getD_append _ _ _ _ h

lemma getD_set_self {α : Type} (l : List α) (p : ℕ) (a d : α) (h : p < l.length) :
    (l.set p a).getD p d = a := by
  rw [List.getD_eq_getElem _ _ (by simpa using h)]
  exact List.getElem_set_self _

lemma getD_set_ne {α : Type} (l : List α) {p q : ℕ} (a : α) (d : α) (h : q ≠ p) :
    (l.set q a).getD p d = l.getD p d := by
  rcases lt_or_ge p l.length with hp | hp
  · rw [List.getD_eq_getElem _ _ (by simpa using hp), List.getD_eq_getElem _ _ hp]
    exact List.getElem_set_ne h _
  · rw [List.getD_eq_default _ _ (by simpa using hp), List.getD_eq_default _ _ hp]

namespace TMM

/-- The raw-factor vector the heap-level body returns, as a pure function
of the two arrays it reads (the caller's matrix and the frozen
reference). -/
noncomputable def factors_of_reads (m_trim a_trim : ℚ) (xc refc : Cell) : List (Option ℝ) :=
  let xf := remove_zero_genes_cell xc
  let libs := xf.map osum
  let libRef := osum (refc.headD [])
  let xs := substZeroNan xf
  let refs := substZeroNan (copyC refc)
  ((xs.zip libs).map
    (fun p => sample_factor_cell m_trim a_trim p.2 libRef p.1 (refs.headD [])))

lemma _get_norm_factors_heap_factors (m_trim a_trim : ℚ) (h : Heap) (refPtr xPtr : ℕ)
    (hr : refPtr < h.length) :
    (_get_norm_factors_heap m_trim a_trim h refPtr xPtr).2 =
      factors_of_reads m_trim a_trim (readH h xPtr) (readH h refPtr) := by
  have hxl : readH (h ++ [remove_zero_genes_cell (readH h xPtr)]) h.length
      = remove_zero_genes_cell (readH h xPtr) := getD_concat _ _ _
  unfold _get_norm_factors_heap factors_of_reads allocH writeH readH
  simp only []
  rw [show (h ++ [remove_zero_genes_cell (h.getD xPtr [])]).getD h.length []
      = remove_zero_genes_cell (h.getD xPtr []) from getD_concat _ _ _]
  rw [show (h ++ [remove_zero_genes_cell (h.getD xPtr [])]).getD refPtr []
      = h.getD refPtr [] from getD_append_lt _ _ _ _ hr]
  rw [show ((h ++ [remove_zero_genes_cell (h.getD xPtr [])]).set h.length
        (substZeroNan (remove_zero_genes_cell (h.getD xPtr [])))).getD refPtr []
      = (h ++ [remove_zero_genes_cell (h.getD xPtr [])]).getD refPtr []
      from getD_set_ne _ _ _ (Nat.ne_of_gt hr)]
  rw [show (h ++ [remove_zero_genes_cell (h.getD xPtr [])]).getD refPtr []
      = h.getD refPtr [] from getD_append_lt _ _ _ _ hr]
  set h1 := h ++ [remove_zero_genes_cell (h.getD xPtr [])] with hh1
  set c1 := substZeroNan (remove_zero_genes_cell (h.getD xPtr [])) with hc1
  have hlen1 : (h1.set h.length c1).length = h.length + 1 := by
    simp [hh1]
  rw [show (h1.set h.length c1 ++ [copyC (h.getD refPtr [])]).getD (h1.set h.length c1).length []
      = copyC (h.getD refPtr []) from getD_concat _ _ _]
  rw [show ((h1.set h.length c1 ++ [copyC (h.getD refPtr [])]).set (h1.set h.length c1).length
        (substZeroNan (copyC (h.getD refPtr [])))).getD (h1.set h.length c1).length []
      = substZeroNan (copyC (h.getD refPtr []))
      from getD_set_self _ _ _ _ (by simp)]
  rw [show ((h1.set h.length c1 ++ [copyC (h.getD refPtr [])]).set (h1.set h.length c1).length
        (substZeroNan (copyC (h.getD refPtr [])))).getD h.length []
      = (h1.set h.length c1 ++ [copyC (h.getD refPtr [])]).getD h.length []
      from getD_set_ne _ _ _ (by rw [hlen1]; omega)]
  rw [show (h1.set h.length c1 ++ [copyC (h.getD refPtr [])]).getD h.length []
      = (h1.set h.length c1).getD h.length []
      from getD_append_lt _ _ _ _ (by rw [hlen1]; omega)]
  rw [show (h1.set h.length c1).getD h.length [] = c1
      from getD_set_self _ _ _ _ (by simp [hh1])]

lemma _get_norm_factors_heap_frame (m_trim a_trim : ℚ) (h : Heap) (refPtr xPtr p : ℕ)
    (hp : p < h.length) :
    readH (_get_norm_factors_heap m_trim a_trim h refPtr xPtr).1 p = readH h p := by
  unfold _get_norm_factors_heap allocH writeH readH
  simp only []
  set h1 := h ++ [remove_zero_genes_cell (h.getD xPtr [])] with hh1
  set c1 := substZeroNan (remove_zero_genes_cell (h.getD xPtr [])) with hc1
  have h1len : h1.length = h.length + 1 := by simp [hh1]
  rw [getD_set_ne _ _ _ (by simp [h1len]; omega)]
  rw [getD_append_lt _ _ _ _ (by simp [h1len]; omega)]
  rw [getD_set_ne _ _ _ (by omega)]
  exact getD_append_lt _ _ _ _ hp

lemma _get_norm_factors_heap_len (m_trim a_trim : ℚ) (h : Heap) (refPtr xPtr : ℕ) :
    h.length ≤ (_get_norm_factors_heap m_trim a_trim h refPtr xPtr).1.length := by
  unfold _get_norm_factors_heap allocH writeH
  simp only []
  simp

/-- The transform output as a pure function of the two arrays the call
reads. -/
noncomputable def output_of_reads (m_trim a_trim : ℚ) (gm : Option ℝ) (xc refc : Cell) :
    List (List (Option ℝ)) :=
  let factors := (factors_of_reads m_trim a_trim xc refc).map (fun f => divOO f gm)
  (xc.zip factors).map
    (fun p => p.1.map (fun x =>
      match x, osum p.1, p.2 with
      | some xv, some l, some fv =>
          if (l : ℝ) * fv = 0 then none else some ((xv : ℝ) / ((l : ℝ) * fv) * 1000000)
      | _, _, _ => none))

lemma transform_heap_output (m_trim a_trim : ℚ) (gm : Option ℝ) (h : Heap) (refPtr xPtr : ℕ)
    (hr : refPtr < h.length) (hx : xPtr < h.length) :
    (transform_heap m_trim a_trim gm h refPtr xPtr).2 =
      output_of_reads m_trim a_trim gm (readH h xPtr) (readH h refPtr) := by
  unfold transform_heap get_norm_factors_heap output_of_reads
  simp only []
  rw [_get_norm_factors_heap_factors m_trim a_trim h refPtr xPtr hr]
  rw [_get_norm_factors_heap_frame m_trim a_trim h refPtr xPtr xPtr hx]

lemma transform_heap_heap (m_trim a_trim : ℚ) (gm : Option ℝ) (h : Heap) (refPtr xPtr : ℕ) :
    (transform_heap m_trim a_trim gm h refPtr xPtr).1 =
      (_get_norm_factors_heap m_trim a_trim h refPtr xPtr).1 := by
  unfold transform_heap get_norm_factors_heap
  simp only []

lemma get_norm_factors_heap_output (m_trim a_trim : ℚ) (gm : Option ℝ) (h : Heap)
    (refPtr xPtr : ℕ) (hr : refPtr < h.length) :
    (get_norm_factors_heap m_trim a_trim gm h refPtr xPtr).2 =
      (factors_of_reads m_trim a_trim (readH h xPtr) (readH h refPtr)).map
        (fun f => divOO f gm) := by
  unfold get_norm_factors_heap
  simp only []
  rw [_get_norm_factors_heap_factors m_trim a_trim h refPtr xPtr hr]

end TMM

/-- C10: a `transform` or `get_norm_factors` call on a fitted TMM
estimator mutates no pre-existing array: the stored reference cell and the
caller's matrix cell are unchanged afterwards (the zero-to-NaN
substitutions hit only freshly allocated copies), and a second identical
call returns the same factors and the same transformed output.  The
stored geometric mean is a scalar passed by value and cannot be mutated. -/
theorem C10_tmm_transform_no_mutation (m_trim a_trim : ℚ) (gm : Option ℝ) (h : Heap)
    (refPtr xPtr : ℕ) (hr : refPtr < h.length) (hx : xPtr < h.length) :
    readH (TMM.transform_heap m_trim a_trim gm h refPtr xPtr).1 refPtr = readH h refPtr ∧
    readH (TMM.transform_heap m_trim a_trim gm h refPtr xPtr).1 xPtr = readH h xPtr ∧
    (TMM.get_norm_factors_heap m_trim a_trim gm
        (TMM.transform_heap m_trim a_trim gm h refPtr xPtr).1 refPtr xPtr).2 =
      (TMM.get_norm_factors_heap m_trim a_trim gm h refPtr xPtr).2 ∧
    (TMM.transform_heap m_trim a_trim gm
        (TMM.transform_heap m_trim a_trim gm h refPtr xPtr).1 refPtr xPtr).2 =
      (TMM.transform_heap m_trim a_trim gm h refPtr xPtr).2 := by
  have hh := TMM.transform_heap_heap m_trim a_trim gm h refPtr xPtr
  have hlen := TMM._get_norm_factors_heap_len m_trim a_trim h refPtr xPtr
  have hr' : refPtr < (TMM.transform_heap m_trim a_trim gm h refPtr xPtr).1.length := by
    rw [hh]; omega
  have hx' : xPtr < (TMM.transform_heap m_trim a_trim gm h refPtr xPtr).1.length := by
    rw [hh]; omega
  have fr : readH (TMM.transform_heap m_trim a_trim gm h refPtr xPtr).1 refPtr
      = readH h refPtr := by
    rw [hh]; exact TMM._get_norm_factors_heap_frame m_trim a_trim h refPtr xPtr refPtr hr
  have fx : readH (TMM.transform_heap m_trim a_trim gm h refPtr xPtr).1 xPtr
      = readH h xPtr := by
    rw [hh]; exact TMM._get_norm_factors_heap_frame m_trim a_trim h refPtr xPtr xPtr hx
  refine ⟨fr, fx, ?_, ?_⟩
  · rw [TMM.get_norm_factors_heap_output m_trim a_trim gm _ refPtr xPtr hr',
      TMM.get_norm_factors_heap_output m_trim a_trim gm h refPtr xPtr hr, fr, fx]
  · rw [TMM.transform_heap_output m_trim a_trim gm _ refPtr xPtr hr' hx',
      TMM.transform_heap_output m_trim a_trim gm h refPtr xPtr hr hx, fr, fx]

/-! General helper lemmas about the shared building blocks. -/

lemma map_eq_range_map {α β : Type} (f : α → β) (l : List α) (d : α) :
    l.map f = (List.range l.length).map (fun i => f (l.getD i d)) := by
  apply List.ext_getElem (by simp)
  intro i h1 h2
  simp only [List.getElem_map, List.getElem_range]
  rw [List.getD_eq_getElem l d (by simpa using h1)]

lemma getD_zero_of_all_zero (l : List ℚ) (h : ∀ x ∈ l, x = 0) (k : ℕ) : l.getD k 0 = 0 := by
  rcases lt_or_ge k l.length with hk | hk
  · rw [List.getD_eq_getElem l 0 hk]
    exact h _ (List.getElem_mem _)
  · exact List.getD_eq_default l 0 hk

lemma mem_sortQ {l : List ℚ} {x : ℚ} (h : x ∈ sortQ l) : x ∈ l :=
  (List.perm_insertionSort (· ≤ ·) l).subset h

lemma scoreatpercentile75_all_zero (l : List ℚ) (h : ∀ x ∈ l, x = 0) :
    scoreatpercentile75 l = 0 := by
  have hs : ∀ x ∈ sortQ l, x = 0 := fun x hx => h x (mem_sortQ hx)
  unfold scoreatpercentile75
  simp only []
  split
  · exact getD_zero_of_all_zero _ hs _
  · rw [getD_zero_of_all_zero _ hs, getD_zero_of_all_zero _ hs]
    ring

lemma remove_zero_genes_length (X : Mat) : (remove_zero_genes X).length = X.length := by
  unfold remove_zero_genes
  simp

lemma remove_zero_genes_row (X : Mat) (i : ℕ) (hi : i < X.length) :
    (remove_zero_genes X).getD i [] =
      (keptGenes X).map (fun j => (X.getD i []).getD j 0) := by
  unfold remove_zero_genes
  rw [List.getD_eq_getElem _ _ (by simpa using hi), List.getElem_map,
    List.getD_eq_getElem _ _ hi]

lemma getD_map_getD {α β : Type} (f : α → β) (l : List α) (i : ℕ) (hi : i < l.length)
    (d : α) (d' : β) : (l.map f).getD i d' = f (l.getD i d) := by
  rw [List.getD_eq_getElem _ _ (by simpa using hi), List.getElem_map,
    List.getD_eq_getElem _ _ hi]

lemma raw_factors_length (X : Mat) : (UQ.raw_factors X).length = X.length := by
  unfold UQ.raw_factors
  simp [remove_zero_genes_length]

lemma raw_factors_getD (X : Mat) (i : ℕ) (hi : i < X.length) :
    (UQ.raw_factors X).getD i none =
      fdiv (scoreatpercentile75 ((remove_zero_genes X).getD i []))
        (library_size ((remove_zero_genes X).getD i [])) := by
  unfold UQ.raw_factors
  rw [List.getD_eq_getElem _ _ (by simp [remove_zero_genes_length]; exact hi),
    List.getElem_map, List.getD_eq_getElem _ _ (by simpa [remove_zero_genes_length] using hi)]

/-- C7: a sample whose counts vanish on every column surviving the
zero-gene filter (while some column does survive) has 75th percentile 0
and library size 0 on the filtered columns, and its entry in the
normalization factor vector of any fitted UQ estimator is NaN (`none`),
propagated to the output rather than raised or zeroed. -/
theorem C7_uq_all_zero_sample_nan (st : UQ.Fitted) (X : Mat) (i : ℕ) (hi : i < X.length)
    (hzero : ∀ j ∈ keptGenes X, (X.getD i []).getD j 0 = 0) (hkept : keptGenes X ≠ []) :
    scoreatpercentile75 ((remove_zero_genes X).getD i []) = 0 ∧
    library_size ((remove_zero_genes X).getD i []) = 0 ∧
    (UQ.get_norm_factors st X).getD i (some 37) = none := by
  have hrow := remove_zero_genes_row X i hi
  have hallz : ∀ x ∈ (remove_zero_genes X).getD i [], x = 0 := by
    rw [hrow]
    intro x hx
    rcases List.mem_map.mp hx with ⟨j, hj, hxj⟩
    rw [← hxj]
    exact hzero j hj
  have hscore : scoreatpercentile75 ((remove_zero_genes X).getD i []) = 0 :=
    scoreatpercentile75_all_zero _ hallz
  have hlib : library_size ((remove_zero_genes X).getD i []) = 0 :=
    List.sum_eq_zero hallz
  refine ⟨hscore, hlib, ?_⟩
  unfold UQ.get_norm_factors
  rw [getD_map_getD _ _ i (by rw [raw_factors_length]; exact hi) none (some 37)]
  rw [raw_factors_getD X i hi, hscore, hlib]
  simp [fdiv, divQR]

/-- Witness for C7: in the matrix `[[1], [0]]` the second sample is zero
on the single surviving column; its factor entry is NaN. -/
theorem C7_uq_all_zero_sample_nan_witness :
    scoreatpercentile75 ((remove_zero_genes [[1], [0]]).getD 1 []) = 0 ∧
    library_size ((remove_zero_genes [[1], [0]]).getD 1 []) = 0 ∧
    (UQ.get_norm_factors ⟨some 1⟩ [[1], [0]]).getD 1 (some 37) = none :=
  C7_uq_all_zero_sample_nan ⟨some 1⟩ [[1], [0]] 1 (by norm_num)
    (by norm_num [keptGenes, nCols, colSum]) (by norm_num [keptGenes, nCols, colSum])

namespace UQ

/-- Spec-side description (claim C4) of a sample's counts restricted to
the columns whose column sum over all samples of `X` is positive. -/
def spec_restrict (X : Mat) (i : ℕ) : List ℚ :=
  ((List.range (nCols X)).filter (fun j => 0 < colSum X j)).map
    (fun j => (X.getD i []).getD j 0)

/-- Spec-side description of a sample's raw factor: its 75th-percentile
count over the restricted columns divided by its total count over them. -/
def spec_raw_factor (X : Mat) (i : ℕ) : Option ℚ :=
  fdiv (scoreatpercentile75 (spec_restrict X i)) ((spec_restrict X i).sum)

/-- Spec-side description of the normalized factor vector: each sample's
raw factor divided by the geometric mean of the raw factors computed the
same way on the fitting matrix. -/
noncomputable def spec_norm_factors (Xfit X : Mat) : List (Option ℝ) :=
  (List.range X.length).map (fun i =>
    divQR (spec_raw_factor X i)
      (gmeanOQ ((List.range Xfit.length).map (fun j => spec_raw_factor Xfit j))))

end UQ

/-- C4: for every fitted UQ estimator and every input matrix, the factor
vector returned by `get_norm_factors` is, per sample, the 75th-percentile
count over the positive-sum columns of `X` divided by the sample's total
count over those columns, the raw factor then divided by the geometric
mean of the raw factors of the fitting matrix computed the same way at
fit time. -/
theorem C4_uq_factor_formula (Xfit X : Mat) :
    UQ.get_norm_factors (UQ.fit Xfit) X = UQ.spec_norm_factors Xfit X := by
  have hraw : ∀ Y : Mat, UQ.raw_factors Y =
      (List.range Y.length).map (fun i => UQ.spec_raw_factor Y i) := by
    intro Y
    unfold UQ.raw_factors remove_zero_genes
    rw [List.map_map, map_eq_range_map _ Y []]
    rfl
  unfold UQ.get_norm_factors UQ.fit UQ.spec_norm_factors
  rw [hraw X, hraw Xfit, List.map_map]
  rfl

/-! Lemmas about `allSome` and the geometric mean. -/

lemma allSome_eq_map_some {α : Type} : ∀ {l : List (Option α)} {v : List α},
    allSome l = some v → l = v.map some := by
  intro l
  induction l with
  | nil => intro v h; simp [allSome] at h; simp [← h]
  | cons a t ih =>
      intro v h
      match a with
      | none => simp [allSome] at h
      | some b =>
          simp only [allSome] at h
          match hv : allSome t with
          | none => rw [hv] at h; simp at h
          | some w =>
              rw [hv] at h
              have hv2 : b :: w = v := Option.some.inj h
              rw [← hv2]
              simp only [List.map_cons]
              rw [ih hv]

lemma allSome_map_some {α : Type} (l : List α) : allSome (l.map some) = some l := by
  induction l with
  | nil => simp [allSome]
  | cons a t ih => simp [allSome, ih]

/-- Cast a rational list to a real list. -/
def castList (l : List ℚ) : List ℝ := l.map (fun (q : ℚ) => (q : ℝ))

lemma gmeanR_pos (l : List ℝ) (hpos : ∀ x ∈ l, 0 < x) : 0 < gmeanR l :=
  Real.rpow_pos_of_pos (List.prod_pos hpos) _

lemma prod_map_div_const (l : List ℝ) (g : ℝ) :
    (l.map (fun x => x / g)).prod = l.prod / g ^ l.length := by
  induction l with
  | nil => simp
  | cons a t ih =>
      simp only [List.map_cons, List.prod_cons, List.length_cons, ih]
      rw [div_mul_div_comm, pow_succ]
      ring_nf

lemma gmeanR_map_div (l : List ℝ) (hne : l ≠ []) (hpos : ∀ x ∈ l, 0 < x) :
    gmeanR (l.map (fun x => x / gmeanR l)) = 1 := by
  have hP : 0 < l.prod := List.prod_pos hpos
  have hgpos : 0 < gmeanR l := gmeanR_pos l hpos
  have hn : (l.length : ℝ) ≠ 0 := by
    have := List.length_pos.mpr hne
    positivity
  have hpow : (gmeanR l ^ l.length) ^ (((l.length : ℝ))⁻¹) = gmeanR l := by
    rw [← Real.rpow_natCast (gmeanR l) l.length, ← Real.rpow_mul (le_of_lt hgpos),
      mul_inv_cancel₀ hn, Real.rpow_one]
  have : gmeanR (l.map (fun x => x / gmeanR l)) =
      (l.prod / gmeanR l ^ l.length) ^ (((l.length : ℝ))⁻¹) := by
    unfold gmeanR
    rw [prod_map_div_const, List.length_map]
  rw [this, Real.div_rpow (le_of_lt hP) (le_of_lt (pow_pos hgpos _)), hpow]
  have hg : l.prod ^ (((l.length : ℝ))⁻¹) = gmeanR l := rfl
  rw [hg, div_self (ne_of_gt hgpos)]

/-! Idempotence of the zero-gene filter, needed to relate the raw factors
computed at fit time (on the already filtered matrix) with those computed
by a later `get_norm_factors` on the original matrix. -/

lemma map_getD_range {α : Type} (r : List α) (d : α) :
    (List.range r.length).map (fun j => r.getD j d) = r := by
  apply List.ext_getElem (by simp)
  intro i h1 h2
  simp only [List.getElem_map, List.getElem_range]
  exact List.getD_eq_getElem r d h2

lemma nCols_remove_zero (X : Mat) : nCols (remove_zero_genes X) = (keptGenes X).length := by
  cases X with
  | nil => simp [nCols, remove_zero_genes, keptGenes, colSum]
  | cons r t => simp [nCols, remove_zero_genes]

lemma colSum_remove_zero (X : Mat) (j : ℕ) (hj : j < (keptGenes X).length) :
    colSum (remove_zero_genes X) j = colSum X ((keptGenes X).getD j 0) := by
  unfold colSum remove_zero_genes
  rw [List.map_map]
  congr 1
  apply List.map_congr_left
  intro r _
  exact getD_map_getD _ _ j hj 0 0

lemma keptGenes_idem (X : Mat) :
    keptGenes (remove_zero_genes X) = List.range (keptGenes X).length := by
  unfold keptGenes
  rw [nCols_remove_zero]
  apply List.filter_eq_self.mpr
  intro j hj
  have hj' : j < (keptGenes X).length := List.mem_range.mp hj
  have hmem : (keptGenes X).getD j 0 ∈ keptGenes X := by
    rw [List.getD_eq_getElem _ _ hj']
    exact List.getElem_mem _
  have hpos := List.of_mem_filter hmem
  simpa [colSum_remove_zero X j hj'] using hpos

lemma remove_zero_genes_idem (X : Mat) :
    remove_zero_genes (remove_zero_genes X) = remove_zero_genes X := by
  conv_lhs => rw [remove_zero_genes]
  rw [keptGenes_idem]
  have hrows : ∀ r ∈ remove_zero_genes X,
      (List.range (keptGenes X).length).map (fun j => r.getD j 0) = id r := by
    intro r hr
    rcases List.mem_map.mp hr with ⟨row, _, hrow⟩
    have hlen : r.length = (keptGenes X).length := by rw [← hrow]; simp
    rw [← hlen]
    exact map_getD_range r 0
  rw [List.map_congr_left hrows, List.map_id]

lemma tmm_get_norm_factors_filter (m_trim a_trim : ℚ) (ref : List ℚ) (X : Mat) :
    TMM._get_norm_factors m_trim a_trim ref (remove_zero_genes X) =
      TMM._get_norm_factors m_trim a_trim ref X := by
  unfold TMM._get_norm_factors
  rw [remove_zero_genes_idem]

lemma sample_factor_pos (m_trim a_trim lib libRef : ℚ) (pairs : List (ℚ × ℚ)) {v : ℝ}
    (h : TMM.sample_factor m_trim a_trim lib libRef pairs = some v) : 0 < v := by
  unfold TMM.sample_factor at h
  split at h
  · exact absurd h (by simp)
  · have hv : (2 : ℝ) ^ (TMM.factor_num m_trim a_trim lib libRef pairs /
        ((TMM.factor_den m_trim a_trim lib libRef pairs : ℚ) : ℝ)) = v := Option.some.inj h
    rw [← hv]
    exact Real.rpow_pos_of_pos two_pos _

/-- C1 as amended: if every sample's raw factor is a defined positive
number, then the geometric mean of the normalized factor vector returned
by `get_norm_factors` on the fitting data is exactly 1, for UQ (first
part) and for TMM (second part, where positivity of defined raw factors
is automatic because each is a power of 2). -/
theorem C1_gmean_of_factors_one :
    (∀ (X : Mat) (qs : List ℚ), X ≠ [] →
      allSome (UQ.raw_factors X) = some qs → (∀ q ∈ qs, 0 < q) →
      gmeanOR (UQ.get_norm_factors (UQ.fit X) X) = some 1) ∧
    (∀ (m_trim a_trim : ℚ) (X : Mat) (fs : List ℝ), X ≠ [] →
      allSome (TMM._get_norm_factors m_trim a_trim
        (TMM.fit m_trim a_trim X).ref_ X) = some fs →
      gmeanOR (TMM.get_norm_factors (TMM.fit m_trim a_trim X) X) = some 1) := by
  have key : ∀ (fs : List ℝ), fs ≠ [] → (∀ x ∈ fs, 0 < x) →
      gmeanOR (fs.map (fun x => divOO (some x) (some (gmeanR fs)))) = some 1 := by
    intro fs hne hpos
    have hg : 0 < gmeanR fs := gmeanR_pos fs hpos
    have hmap : fs.map (fun x => divOO (some x) (some (gmeanR fs))) =
        (fs.map (fun x => x / gmeanR fs)).map some := by
      rw [List.map_map]
      apply List.map_congr_left
      intro x _
      simp [divOO, ne_of_gt hg]
    rw [hmap]
    unfold gmeanOR
    rw [allSome_map_some]
    simp only [Option.map_some']
    rw [gmeanR_map_div fs hne hpos]
  constructor
  · intro X qs hne hall hpos
    have hlq : UQ.raw_factors X = qs.map some := allSome_eq_map_some hall
    have hqlen : qs.length = X.length := by
      have := congrArg List.length hlq
      simpa [raw_factors_length] using this.symm
    have hqne : qs ≠ [] := by
      intro h
      rw [h] at hqlen
      exact hne (List.length_eq_zero.mp hqlen.symm)
    have hcast : ∀ x ∈ qs.map (fun (q : ℚ) => (q : ℝ)), 0 < x := by
      intro x hx
      rcases List.mem_map.mp hx with ⟨q, hq, hxq⟩
      rw [← hxq]
      exact_mod_cast hpos q hq
    have hcne : qs.map (fun (q : ℚ) => (q : ℝ)) ≠ [] := by
      intro h
      apply hqne
      cases qs with
      | nil => rfl
      | cons a t => simp at h
    have hgg : gmean qs = gmeanR (qs.map (fun (q : ℚ) => (q : ℝ))) := by
      unfold gmean gmeanR
      rw [List.length_map]
    unfold UQ.get_norm_factors UQ.fit gmeanOQ
    rw [hlq, allSome_map_some]
    simp only [Option.map_some']
    have hmap2 : (qs.map some).map (fun a => divQR a (some (gmean qs))) =
        (qs.map (fun (q : ℚ) => (q : ℝ))).map
          (fun x => divOO (some x) (some (gmeanR (qs.map (fun (q : ℚ) => (q : ℝ)))))) := by
      rw [List.map_map, List.map_map]
      apply List.map_congr_left
      intro q _
      simp only [Function.comp]
      rw [hgg]
      simp [divQR, divOO]
    rw [hmap2]
    exact key _ hcne hcast
  · intro m_trim a_trim X fs hne hall
    have hm : (TMM.fit m_trim a_trim X).m_trim = m_trim := rfl
    have ha : (TMM.fit m_trim a_trim X).a_trim = a_trim := rfl
    have hraw : TMM._get_norm_factors m_trim a_trim (TMM.fit m_trim a_trim X).ref_ X =
        fs.map some := allSome_eq_map_some hall
    have hpos : ∀ x ∈ fs, 0 < x := by
      intro x hx
      have hxm : some x ∈ fs.map some := List.mem_map_of_mem some hx
      rw [← hraw] at hxm
      unfold TMM._get_norm_factors at hxm
      rcases List.mem_map.mp hxm with ⟨row, _, hrow⟩
      exact sample_factor_pos _ _ _ _ _ hrow
    have hlen : fs.length = (remove_zero_genes X).length := by
      have := congrArg List.length hraw
      unfold TMM._get_norm_factors at this
      simpa using this.symm
    have hfne : fs ≠ [] := by
      intro h
      rw [h] at hlen
      simp [remove_zero_genes_length] at hlen
      exact hne (List.length_eq_zero.mp hlen.symm)
    have hfit : (TMM.fit m_trim a_trim X).geometric_mean_ =
        gmeanOR (TMM._get_norm_factors m_trim a_trim (TMM.fit m_trim a_trim X).ref_ X) := by
      conv_lhs => rw [TMM.fit]
      simp only []
      rw [tmm_get_norm_factors_filter]
      rfl
    unfold TMM.get_norm_factors
    rw [hm, ha, hfit, hraw]
    have hgm : gmeanOR (fs.map some) = some (gmeanR fs) := by
      unfold gmeanOR
      rw [allSome_map_some]
      simp only [Option.map_some']
    rw [hgm, List.map_map]
    have : ((fun f => divOO f (some (gmeanR fs))) ∘ some) =
        fun x => divOO (some x) (some (gmeanR fs)) := rfl
    rw [this]
    exact key fs hfne hpos

/-! Computable characterization of the TMM trimming: base-2 logarithms are
strictly increasing on positive arguments, so the average-tie ranks of the
M values (logs of ratios) and the A values (half-logs of products)
coincide with the ranks of the underlying rational ratios and products. -/

namespace TMM

/-- The filtered gene ratios `r / r_ref` whose logs are the M values. -/
def m_quots (lib libRef : ℚ) (pairs : List (ℚ × ℚ)) : List ℚ :=
  (finite_genes lib libRef pairs).map (m_quot lib libRef)

/-- The filtered gene products `r * r_ref` whose half-logs are the A
values. -/
def a_prods (lib libRef : ℚ) (pairs : List (ℚ × ℚ)) : List ℚ :=
  (finite_genes lib libRef pairs).map (a_prod lib libRef)

/-- The keep mask expressed with ranks of the rational ratios and
products. -/
def keepQ (m_trim a_trim lib libRef : ℚ) (pairs : List (ℚ × ℚ)) (i : ℕ) : Prop :=
  let mq := m_quots lib libRef pairs
  let aq := a_prods lib libRef pairs
  let n := (finite_genes lib libRef pairs).length
  let m_low : ℚ := ⌊(n : ℚ) * m_trim⌋ + 1
  let m_high : ℚ := (n : ℚ) - m_low + 1
  let a_low : ℚ := ⌊(n : ℚ) * a_trim⌋ + 1
  let a_high : ℚ := (n : ℚ) - a_low + 1
  m_low ≤ rankdata mq (mq.getD i 1) ∧ rankdata mq (mq.getD i 1) ≤ m_high ∧
    a_low ≤ rankdata aq (aq.getD i 1) ∧ rankdata aq (aq.getD i 1) ≤ a_high

instance (m_trim a_trim lib libRef : ℚ) (pairs : List (ℚ × ℚ)) (i : ℕ) :
    Decidable (keepQ m_trim a_trim lib libRef pairs i) := by
  unfold keepQ
  infer_instance

/-- The denominator of the factor exponent, computably. -/
def factor_denQ (m_trim a_trim lib libRef : ℚ) (pairs : List (ℚ × ℚ)) : ℚ :=
  ((List.range (finite_genes lib libRef pairs).length).map (fun i =>
    if keepQ m_trim a_trim lib libRef pairs i then 1 / (w_vals lib libRef pairs).getD i 0
    else 0)).sum

/-- The numerator of the factor exponent, with the only irrational parts
being the base-2 logs of the rational ratios. -/
noncomputable def factor_numQ (m_trim a_trim lib libRef : ℚ) (pairs : List (ℚ × ℚ)) : ℝ :=
  ((List.range (finite_genes lib libRef pairs).length).map (fun i =>
    if keepQ m_trim a_trim lib libRef pairs i then
      Real.logb 2 (((m_quots lib libRef pairs).getD i 1 : ℚ) : ℝ) /
        (((w_vals lib libRef pairs).getD i 0 : ℚ) : ℝ)
    else 0)).sum

end TMM

lemma countP_lt_map_mono (f : ℚ → ℝ)
    (hf : ∀ a b : ℚ, 0 < a → 0 < b → (f a < f b ↔ a < b))
    (l : List ℚ) (hl : ∀ q ∈ l, 0 < q) (x : ℚ) (hx : 0 < x) :
    (l.map f).countP (fun y => y < f x) = l.countP (fun y => y < x) := by
  rw [List.countP_map]
  apply List.countP_congr
  intro q hq
  simp only [Function.comp, decide_eq_true_eq]
  exact hf q x (hl q hq) hx

lemma countP_eq_map_mono (f : ℚ → ℝ)
    (hfe : ∀ a b : ℚ, 0 < a → 0 < b → (f a = f b ↔ a = b))
    (l : List ℚ) (hl : ∀ q ∈ l, 0 < q) (x : ℚ) (hx : 0 < x) :
    (l.map f).countP (fun y => y = f x) = l.countP (fun y => y = x) := by
  rw [List.countP_map]
  apply List.countP_congr
  intro q hq
  simp only [Function.comp, decide_eq_true_eq]
  exact hfe q x (hl q hq) hx

lemma rankdata_map_mono (f : ℚ → ℝ)
    (hf : ∀ a b : ℚ, 0 < a → 0 < b → (f a < f b ↔ a < b))
    (hfe : ∀ a b : ℚ, 0 < a → 0 < b → (f a = f b ↔ a = b))
    (l : List ℚ) (hl : ∀ q ∈ l, 0 < q) (x : ℚ) (hx : 0 < x) :
    rankdata (l.map f) (f x) = rankdata l x := by
  unfold rankdata
  rw [countP_lt_map_mono f hf l hl x hx, countP_eq_map_mono f hfe l hl x hx]

lemma logb_cast_lt_iff (a b : ℚ) (ha : 0 < a) (hb : 0 < b) :
    (Real.logb 2 ((a : ℚ) : ℝ) < Real.logb 2 ((b : ℚ) : ℝ)) ↔ a < b := by
  rw [Real.logb_lt_logb_iff (by norm_num : (1 : ℝ) < 2) (by exact_mod_cast ha)
    (by exact_mod_cast hb)]
  exact_mod_cast Iff.rfl

lemma logb_cast_eq_iff (a b : ℚ) (ha : 0 < a) (hb : 0 < b) :
    (Real.logb 2 ((a : ℚ) : ℝ) = Real.logb 2 ((b : ℚ) : ℝ)) ↔ a = b := by
  constructor
  · intro h
    have := Real.logb_injOn_pos (by norm_num : (1 : ℝ) < 2)
      (Set.mem_Ioi.mpr (by exact_mod_cast ha)) (Set.mem_Ioi.mpr (by exact_mod_cast hb)) h
    exact_mod_cast this
  · intro h
    rw [h]

lemma logb_half_cast_lt_iff (a b : ℚ) (ha : 0 < a) (hb : 0 < b) :
    (Real.logb 2 ((a : ℚ) : ℝ) / 2 < Real.logb 2 ((b : ℚ) : ℝ) / 2) ↔ a < b := by
  rw [div_lt_div_iff_of_pos_right (by norm_num : (0 : ℝ) < 2)]
  exact logb_cast_lt_iff a b ha hb

lemma logb_half_cast_eq_iff (a b : ℚ) (ha : 0 < a) (hb : 0 < b) :
    (Real.logb 2 ((a : ℚ) : ℝ) / 2 = Real.logb 2 ((b : ℚ) : ℝ) / 2) ↔ a = b := by
  constructor
  · intro h
    have h2 : Real.logb 2 ((a : ℚ) : ℝ) = Real.logb 2 ((b : ℚ) : ℝ) := by linarith
    exact (logb_cast_eq_iff a b ha hb).mp h2
  · intro h
    rw [h]

namespace TMM

lemma div_pos_of_mul_pos {a b : ℚ} (h : 0 < a * b) : 0 < a / b := by
  rcases mul_pos_iff.mp h with ⟨ha, hb⟩ | ⟨ha, hb⟩
  · exact div_pos ha hb
  · exact div_pos_of_neg_of_neg ha hb

lemma m_quots_pos (lib libRef : ℚ) (pairs : List (ℚ × ℚ)) :
    ∀ q ∈ m_quots lib libRef pairs, 0 < q := by
  intro q hq
  rcases List.mem_map.mp hq with ⟨p, hp, hpq⟩
  have hfin : finite_gene lib libRef p := by
    have := List.of_mem_filter hp
    simpa using this
  rw [← hpq]
  exact div_pos_of_mul_pos hfin.2.2

lemma a_prods_pos (lib libRef : ℚ) (pairs : List (ℚ × ℚ)) :
    ∀ q ∈ a_prods lib libRef pairs, 0 < q := by
  intro q hq
  rcases List.mem_map.mp hq with ⟨p, hp, hpq⟩
  have hfin : finite_gene lib libRef p := by
    have := List.of_mem_filter hp
    simpa using this
  rw [← hpq]
  exact hfin.2.2

lemma m_quots_length (lib libRef : ℚ) (pairs : List (ℚ × ℚ)) :
    (m_quots lib libRef pairs).length = (finite_genes lib libRef pairs).length := by
  unfold m_quots
  simp

lemma a_prods_length (lib libRef : ℚ) (pairs : List (ℚ × ℚ)) :
    (a_prods lib libRef pairs).length = (finite_genes lib libRef pairs).length := by
  unfold a_prods
  simp

lemma m_vals_eq (lib libRef : ℚ) (pairs : List (ℚ × ℚ)) :
    m_vals lib libRef pairs =
      (m_quots lib libRef pairs).map (fun q => Real.logb 2 ((q : ℚ) : ℝ)) := by
  unfold m_vals m_quots
  rw [List.map_map]
  rfl

lemma a_vals_eq (lib libRef : ℚ) (pairs : List (ℚ × ℚ)) :
    a_vals lib libRef pairs =
      (a_prods lib libRef pairs).map (fun q => Real.logb 2 ((q : ℚ) : ℝ) / 2) := by
  unfold a_vals a_prods
  rw [List.map_map]
  rfl

lemma keep_iff_keepQ (m_trim a_trim lib libRef : ℚ) (pairs : List (ℚ × ℚ)) (i : ℕ)
    (hi : i < (finite_genes lib libRef pairs).length) :
    keep m_trim a_trim lib libRef pairs i ↔ keepQ m_trim a_trim lib libRef pairs i := by
  have hmi : i < (m_quots lib libRef pairs).length := by rwa [m_quots_length]
  have hai : i < (a_prods lib libRef pairs).length := by rwa [a_prods_length]
  have hmx : 0 < (m_quots lib libRef pairs).getD i 1 := by
    apply m_quots_pos lib libRef pairs
    rw [List.getD_eq_getElem _ _ hmi]
    exact List.getElem_mem _
  have hax : 0 < (a_prods lib libRef pairs).getD i 1 := by
    apply a_prods_pos lib libRef pairs
    rw [List.getD_eq_getElem _ _ hai]
    exact List.getElem_mem _
  have hm1 : (m_vals lib libRef pairs).getD i 0 =
      Real.logb 2 (((m_quots lib libRef pairs).getD i 1 : ℚ) : ℝ) := by
    rw [m_vals_eq]
    exact getD_map_getD _ _ i hmi 1 0
  have ha1 : (a_vals lib libRef pairs).getD i 0 =
      Real.logb 2 (((a_prods lib libRef pairs).getD i 1 : ℚ) : ℝ) / 2 := by
    rw [a_vals_eq]
    exact getD_map_getD _ _ i hai 1 0
  have hm2 : rankdata (m_vals lib libRef pairs) ((m_vals lib libRef pairs).getD i 0) =
      rankdata (m_quots lib libRef pairs) ((m_quots lib libRef pairs).getD i 1) := by
    rw [hm1, m_vals_eq]
    exact rankdata_map_mono _ logb_cast_lt_iff logb_cast_eq_iff _
      (m_quots_pos lib libRef pairs) _ hmx
  have ha2 : rankdata (a_vals lib libRef pairs) ((a_vals lib libRef pairs).getD i 0) =
      rankdata (a_prods lib libRef pairs) ((a_prods lib libRef pairs).getD i 1) := by
    rw [ha1, a_vals_eq]
    exact rankdata_map_mono _ logb_half_cast_lt_iff logb_half_cast_eq_iff _
      (a_prods_pos lib libRef pairs) _ hax
  simp only [keep, keepQ]
  rw [hm2, ha2]

open scoped Classical in
lemma factor_den_eq (m_trim a_trim lib libRef : ℚ) (pairs : List (ℚ × ℚ)) :
    factor_den m_trim a_trim lib libRef pairs = factor_denQ m_trim a_trim lib libRef pairs := by
  unfold factor_den factor_denQ
  congr 1
  apply List.map_congr_left
  intro i hi
  have hi' : i < (finite_genes lib libRef pairs).length := List.mem_range.mp hi
  exact if_congr (keep_iff_keepQ m_trim a_trim lib libRef pairs i hi') rfl rfl

open scoped Classical in
lemma factor_num_eq (m_trim a_trim lib libRef : ℚ) (pairs : List (ℚ × ℚ)) :
    factor_num m_trim a_trim lib libRef pairs = factor_numQ m_trim a_trim lib libRef pairs := by
  unfold factor_num factor_numQ
  congr 1
  apply List.map_congr_left
  intro i hi
  have hi' : i < (finite_genes lib libRef pairs).length := List.mem_range.mp hi
  have hmi : i < (m_quots lib libRef pairs).length := by rwa [m_quots_length]
  have hm1 : (m_vals lib libRef pairs).getD i 0 =
      Real.logb 2 (((m_quots lib libRef pairs).getD i 1 : ℚ) : ℝ) := by
    rw [m_vals_eq]
    exact getD_map_getD _ _ i hmi 1 0
  rw [hm1]
  exact if_congr (keep_iff_keepQ m_trim a_trim lib libRef pairs i hi') rfl rfl

/-- The per-sample factor, with the trimming decided by computable ranks
of the rational ratios and products. -/
lemma sample_factor_char (m_trim a_trim lib libRef : ℚ) (pairs : List (ℚ × ℚ)) :
    sample_factor m_trim a_trim lib libRef pairs =
      if factor_denQ m_trim a_trim lib libRef pairs = 0 then none
      else some ((2 : ℝ) ^ (factor_numQ m_trim a_trim lib libRef pairs /
        ((factor_denQ m_trim a_trim lib libRef pairs : ℚ) : ℝ))) := by
  unfold sample_factor
  rw [factor_den_eq, factor_num_eq]

end TMM

/-! Properties of `firstMinIdx` (the embedding of `np.argmin`). -/

lemma findIdx_congr {α : Type} {p q : α → Bool} : ∀ (l : List α),
    (∀ a ∈ l, p a = q a) → l.findIdx p = l.findIdx q := by
  intro l
  induction l with
  | nil => intro _; rfl
  | cons a t ih =>
      intro h
      rw [List.findIdx_cons, List.findIdx_cons, h a (by simp), ih (fun b hb => h b (by simp [hb]))]

lemma findIdx_map_comp {α β : Type} (f : α → β) (p : β → Bool) : ∀ (l : List α),
    (l.map f).findIdx p = l.findIdx (fun a => p (f a)) := by
  intro l
  induction l with
  | nil => rfl
  | cons a t ih => rw [List.map_cons, List.findIdx_cons, List.findIdx_cons, ih]

lemma firstMinIdx_map {α β : Type} [LinearOrder α] [LinearOrder β] (f : α → β) (l : List α)
    (hf : ∀ a ∈ l, ∀ b ∈ l, (f a ≤ f b ↔ a ≤ b)) :
    firstMinIdx (l.map f) = firstMinIdx l := by
  unfold firstMinIdx
  rw [findIdx_map_comp]
  apply findIdx_congr
  intro a ha
  rw [decide_eq_decide]
  constructor
  · intro h b hb
    exact (hf a ha b hb).mp (h (f b) (List.mem_map_of_mem f hb))
  · intro h y hy
    rcases List.mem_map.mp hy with ⟨b, hb, hby⟩
    rw [← hby]
    exact (hf a ha b hb).mpr (h b hb)

lemma exists_min {α : Type} [LinearOrder α] : ∀ (l : List α), l ≠ [] →
    ∃ x ∈ l, ∀ y ∈ l, x ≤ y := by
  intro l
  induction l with
  | nil => intro h; exact absurd rfl h
  | cons a t ih =>
      intro _
      cases t with
      | nil => exact ⟨a, by simp, by simp⟩
      | cons b t' =>
          rcases ih (by simp) with ⟨x, hx, hmin⟩
          rcases le_total a x with hax | hxa
          · refine ⟨a, by simp, ?_⟩
            intro y hy
            rcases List.mem_cons.mp hy with hya | hyt
            · rw [hya]
            · exact le_trans hax (hmin y hyt)
          · refine ⟨x, by simp [hx], ?_⟩
            intro y hy
            rcases List.mem_cons.mp hy with hya | hyt
            · rw [hya]; exact hxa
            · exact hmin y hyt

lemma firstMinIdx_spec {α : Type} [LinearOrder α] (l : List α) (d : α) (hne : l ≠ []) :
    firstMinIdx l < l.length ∧
    (∀ y ∈ l, l.getD (firstMinIdx l) d ≤ y) ∧
    (∀ j < firstMinIdx l, l.getD (firstMinIdx l) d < l.getD j d) := by
  rcases exists_min l hne with ⟨x, hx, hmin⟩
  have hex : ∃ y ∈ l, (fun z => decide (∀ w ∈ l, z ≤ w)) y = true :=
    ⟨x, hx, decide_eq_true hmin⟩
  have hlt : firstMinIdx l < l.length := List.findIdx_lt_length_of_exists hex
  have hlt2 : l.findIdx (fun z => decide (∀ w ∈ l, z ≤ w)) < l.length := hlt
  have hval : decide (∀ w ∈ l, l.getD (firstMinIdx l) d ≤ w) = true := by
    rw [List.getD_eq_getElem _ _ hlt]
    exact @List.findIdx_getElem _ _ _ hlt2
  have hmin' : ∀ y ∈ l, l.getD (firstMinIdx l) d ≤ y := of_decide_eq_true hval
  refine ⟨hlt, hmin', ?_⟩
  intro j hj
  have hjlen : j < l.length := lt_trans hj hlt
  have hnp : decide (∀ w ∈ l, l.getD j d ≤ w) = false := by
    rw [List.getD_eq_getElem _ _ hjlen]
    exact List.not_of_lt_findIdx hj
  have : ¬(∀ w ∈ l, l.getD j d ≤ w) := of_decide_eq_false hnp
  push_neg at this
  rcases this with ⟨w, hw, hwlt⟩
  exact lt_of_le_of_lt (hmin' w hw) hwlt

/-! Sum helpers for the reference-index characterization. -/

lemma sum_map_div (l : List ℝ) (g : ℝ) : (l.map (fun x => x / g)).sum = l.sum / g := by
  induction l with
  | nil => simp
  | cons a t ih => simp [ih, add_div]

lemma castList_sum (l : List ℚ) : (castList l).sum = ((l.sum : ℚ) : ℝ) := by
  induction l with
  | nil => simp [castList]
  | cons a t ih =>
      have h : castList (a :: t) = ((a : ℚ) : ℝ) :: castList t := by simp [castList]
      rw [h, List.sum_cons, ih]
      push_cast
      rw [List.map_cons, List.sum_cons]

/-- The reference index computed by `TMM._get_ref` equals the first-min
index of the rational deviations of the raw factors from their mean,
whenever all raw UQ factors are defined and positive. -/
lemma tmm_get_ref_index_char (X : Mat) (qs : List ℚ)
    (hall : allSome (UQ.raw_factors X) = some qs) (hpos : ∀ q ∈ qs, 0 < q)
    (hne : qs ≠ []) :
    TMM._get_ref_index X = firstMinIdx (qs.map (fun q => |q - meanQ qs|)) := by
  have hlq : UQ.raw_factors X = qs.map some := allSome_eq_map_some hall
  have hcast : ∀ x ∈ castList qs, 0 < x := by
    intro x hx
    unfold castList at hx
    rcases List.mem_map.mp hx with ⟨q, hq, hxq⟩
    rw [← hxq]
    exact_mod_cast hpos q hq
  have hgg : gmean qs = gmeanR (castList qs) := by
    unfold gmean gmeanR castList
    rw [List.length_map]
  have hg : 0 < gmean qs := by
    rw [hgg]
    exact gmeanR_pos _ hcast
  have hfs : UQ.get_norm_factors (UQ.fit X) X =
      (qs.map (fun q => ((q : ℚ) : ℝ) / gmean qs)).map some := by
    unfold UQ.get_norm_factors UQ.fit gmeanOQ
    rw [hlq, allSome_map_some]
    simp only [Option.map_some']
    rw [List.map_map, List.map_map]
    apply List.map_congr_left
    intro q _
    simp [divQR, ne_of_gt hg]
  unfold TMM._get_ref_index
  rw [hfs, allSome_map_some]
  simp only []
  set fs := qs.map (fun q => ((q : ℚ) : ℝ) / gmean qs) with hfsdef
  have hmean : meanR fs = ((meanQ qs : ℚ) : ℝ) / gmean qs := by
    unfold meanR meanQ
    rw [hfsdef]
    have h1 : (qs.map (fun q => ((q : ℚ) : ℝ) / gmean qs)) =
        (castList qs).map (fun x => x / gmean qs) := by
      unfold castList
      rw [List.map_map]
      rfl
    rw [h1, sum_map_div, castList_sum, List.length_map]
    unfold castList
    rw [List.length_map]
    push_cast
    rw [div_right_comm]
  have hdevs : fs.map (fun v => |v - meanR fs|) =
      ((qs.map (fun q => |q - meanQ qs|)).map (fun d => ((d : ℚ) : ℝ))).map
        (fun x => x / gmean qs) := by
    rw [hmean, hfsdef]
    rw [List.map_map, List.map_map, List.map_map]
    apply List.map_congr_left
    intro q _
    simp only [Function.comp]
    rw [div_sub_div_same, abs_div, abs_of_pos hg]
    push_cast
    ring_nf
  rw [hdevs]
  rw [firstMinIdx_map (fun x => x / gmean qs) _
    (fun a _ b _ => div_le_div_iff_of_pos_right hg)]
  rw [firstMinIdx_map (fun d : ℚ => ((d : ℚ) : ℝ)) _
    (fun a _ b _ => Rat.cast_le)]

/-- C3: `TMM.fit` stores as `ref_` the row of the zero-gene-filtered
matrix whose UQ factor deviates least in absolute value from the mean UQ
factor, the earliest such row on ties, and every later `get_norm_factors`
call uses exactly that stored row.  The deviations are stated for the raw
UQ factors `qs`; the normalized factors the code ranks are `qs` divided by
their positive geometric mean, so all comparisons (and hence the argmin)
coincide, which is what `tmm_get_ref_index_char` proves about the code's
float argmin. -/
theorem C3_tmm_reference_selection (m_trim a_trim : ℚ) (X : Mat) (qs : List ℚ)
    (hall : allSome (UQ.raw_factors (remove_zero_genes X)) = some qs)
    (hpos : ∀ q ∈ qs, 0 < q) (hne : qs ≠ []) :
    (TMM.fit m_trim a_trim X).ref_ =
      (remove_zero_genes X).getD
        (firstMinIdx (qs.map (fun q => |q - meanQ qs|))) [] ∧
    (∀ y ∈ qs.map (fun q => |q - meanQ qs|),
      (qs.map (fun q => |q - meanQ qs|)).getD
        (firstMinIdx (qs.map (fun q => |q - meanQ qs|))) 0 ≤ y) ∧
    (∀ j < firstMinIdx (qs.map (fun q => |q - meanQ qs|)),
      (qs.map (fun q => |q - meanQ qs|)).getD
        (firstMinIdx (qs.map (fun q => |q - meanQ qs|))) 0 <
      (qs.map (fun q => |q - meanQ qs|)).getD j 0) ∧
    (∀ Y, TMM.get_norm_factors (TMM.fit m_trim a_trim X) Y =
      (TMM._get_norm_factors m_trim a_trim
        ((remove_zero_genes X).getD
          (firstMinIdx (qs.map (fun q => |q - meanQ qs|))) []) Y).map
        (fun f => divOO f (TMM.fit m_trim a_trim X).geometric_mean_)) := by
  have hdvne : qs.map (fun q => |q - meanQ qs|) ≠ [] := by
    intro h
    apply hne
    cases qs with
    | nil => rfl
    | cons a t => simp at h
  have hspec := firstMinIdx_spec (qs.map (fun q => |q - meanQ qs|)) 0 hdvne
  have hidx := tmm_get_ref_index_char (remove_zero_genes X) qs hall hpos hne
  have href : (TMM.fit m_trim a_trim X).ref_ =
      (remove_zero_genes X).getD
        (firstMinIdx (qs.map (fun q => |q - meanQ qs|))) [] := by
    have h0 : (TMM.fit m_trim a_trim X).ref_ =
        (remove_zero_genes X).getD (TMM._get_ref_index (remove_zero_genes X)) [] := rfl
    rw [h0, hidx]
  refine ⟨href, hspec.2.1, hspec.2.2, ?_⟩
  intro Y
  unfold TMM.get_norm_factors
  rw [show (TMM.fit m_trim a_trim X).m_trim = m_trim from rfl,
    show (TMM.fit m_trim a_trim X).a_trim = a_trim from rfl, ← href]

/-- Counterexample to C1 as stated: the matrix `[[1], [0]]` has one
sample and one gene with a positive total count, yet after `fit` the
geometric mean of the factors returned on the fitting data is NaN
(`none`), not 1, because the all-zero second sample has raw factor
`0 / 0`. -/
theorem C1_counterexample :
    gmeanOR (UQ.get_norm_factors (UQ.fit [[1], [0]]) [[1], [0]]) ≠ some 1 := by
  have h1 : UQ.raw_factors [[1], [0]] = [some 1, none] := by
    norm_num [UQ.raw_factors, remove_zero_genes, keptGenes, nCols, colSum,
      scoreatpercentile75, sortQ, List.insertionSort, List.orderedInsert,
      library_size, fdiv, List.range_succ, List.filter_cons, List.getD, Int.toNat]
  unfold gmeanOR UQ.get_norm_factors UQ.fit gmeanOQ
  rw [h1]
  simp [allSome, divQR]

/-! Concrete evaluations on the 2-sample matrix `[[1,2],[1,2]]`, used by
several witnesses. -/

lemma eval1_rm : remove_zero_genes [[1, 2], [1, 2]] = [[1, 2], [1, 2]] := by
  norm_num [remove_zero_genes, keptGenes, nCols, colSum, List.range_succ, List.filter_cons,
    List.getD]

lemma eval1_raw : UQ.raw_factors [[1, 2], [1, 2]] = [some (7/12), some (7/12)] := by
  norm_num [UQ.raw_factors, eval1_rm, scoreatpercentile75, sortQ, List.insertionSort,
    List.orderedInsert, library_size, fdiv, List.getD, Int.toNat]

lemma eval1_refidx : TMM._get_ref_index [[1, 2], [1, 2]] = 0 := by
  have hall : allSome (UQ.raw_factors [[1, 2], [1, 2]]) = some [7/12, 7/12] := by
    rw [eval1_raw]
    rfl
  rw [tmm_get_ref_index_char [[1, 2], [1, 2]] [7/12, 7/12] hall (by norm_num) (by simp)]
  norm_num [meanQ, firstMinIdx, List.findIdx_cons]

lemma eval1_ref : (TMM.fit (3/10) (1/20) [[1, 2], [1, 2]]).ref_ = [1, 2] := by
  have h0 : (TMM.fit (3/10) (1/20) [[1, 2], [1, 2]]).ref_ =
      (remove_zero_genes [[1, 2], [1, 2]]).getD
        (TMM._get_ref_index (remove_zero_genes [[1, 2], [1, 2]])) [] := rfl
  rw [h0, eval1_rm, eval1_refidx]
  rfl

lemma eval1_den : TMM.factor_denQ (3/10) (1/20) 3 3 [((1 : ℚ), (1 : ℚ)), (2, 2)] = 15/4 := by
  have hfin : TMM.finite_genes 3 3 [((1 : ℚ), (1 : ℚ)), (2, 2)] = [(1, 1), (2, 2)] := by
    norm_num [-Prod.mk_one_one, TMM.finite_genes, TMM.finite_gene, List.filter_cons]
  have hmq : TMM.m_quots 3 3 [((1 : ℚ), (1 : ℚ)), (2, 2)] = [1, 1] := by
    norm_num [-Prod.mk_one_one, TMM.m_quots, hfin, TMM.m_quot]
  have haq : TMM.a_prods 3 3 [((1 : ℚ), (1 : ℚ)), (2, 2)] = [1/9, 4/9] := by
    norm_num [-Prod.mk_one_one, TMM.a_prods, hfin, TMM.a_prod]
  have hwv : TMM.w_vals 3 3 [((1 : ℚ), (1 : ℚ)), (2, 2)] = [4/3, 1/3] := by
    norm_num [-Prod.mk_one_one, TMM.w_vals, hfin, TMM.w_val]
  have hlen : (TMM.finite_genes 3 3 [((1 : ℚ), (1 : ℚ)), (2, 2)]).length = 2 := by
    rw [hfin]
    rfl
  have hk0 : TMM.keepQ (3/10) (1/20) 3 3 [((1 : ℚ), (1 : ℚ)), (2, 2)] 0 := by
    simp only [TMM.keepQ]
    rw [hmq, haq, hlen]
    norm_num [rankdata, List.countP_cons, List.countP_nil, List.getD, Int.toNat]
  have hk1 : TMM.keepQ (3/10) (1/20) 3 3 [((1 : ℚ), (1 : ℚ)), (2, 2)] 1 := by
    simp only [TMM.keepQ]
    rw [hmq, haq, hlen]
    norm_num [rankdata, List.countP_cons, List.countP_nil, List.getD, Int.toNat]
  unfold TMM.factor_denQ
  rw [hlen, hwv]
  norm_num [-Prod.mk_one_one, List.range_succ, hk0, hk1, List.getD, Int.toNat]

lemma eval1_num : TMM.factor_numQ (3/10) (1/20) 3 3 [((1 : ℚ), (1 : ℚ)), (2, 2)] = 0 := by
  have hfin : TMM.finite_genes 3 3 [((1 : ℚ), (1 : ℚ)), (2, 2)] = [(1, 1), (2, 2)] := by
    norm_num [-Prod.mk_one_one, TMM.finite_genes, TMM.finite_gene, List.filter_cons]
  have hmq : TMM.m_quots 3 3 [((1 : ℚ), (1 : ℚ)), (2, 2)] = [1, 1] := by
    norm_num [-Prod.mk_one_one, TMM.m_quots, hfin, TMM.m_quot]
  have hlen : (TMM.finite_genes 3 3 [((1 : ℚ), (1 : ℚ)), (2, 2)]).length = 2 := by
    rw [hfin]
    rfl
  unfold TMM.factor_numQ
  rw [hlen, hmq]
  norm_num [-Prod.mk_one_one, List.range_succ, List.getD]

lemma eval1_sf : TMM.sample_factor (3/10) (1/20) 3 3 [((1 : ℚ), (1 : ℚ)), (2, 2)] = some 1 := by
  rw [TMM.sample_factor_char, eval1_den, eval1_num]
  norm_num

lemma eval1_gnf : TMM._get_norm_factors (3/10) (1/20) [1, 2] [[1, 2], [1, 2]] =
    [some 1, some 1] := by
  unfold TMM._get_norm_factors
  rw [eval1_rm]
  have hls : library_size [(1 : ℚ), 2] = 3 := by norm_num [library_size]
  simp only [List.map_cons, List.map_nil, hls]
  rw [show ([(1 : ℚ), 2].zip [(1 : ℚ), 2]) = [((1 : ℚ), (1 : ℚ)), (2, 2)] from rfl, eval1_sf]

lemma eval1_fitgm : (TMM.fit (3/10) (1/20) [[1, 2], [1, 2]]).geometric_mean_ = some 1 := by
  have h0 : (TMM.fit (3/10) (1/20) [[1, 2], [1, 2]]).geometric_mean_ =
      gmeanOR (TMM._get_norm_factors (3/10) (1/20)
        ((remove_zero_genes [[1, 2], [1, 2]]).getD
          (TMM._get_ref_index (remove_zero_genes [[1, 2], [1, 2]])) [])
        (remove_zero_genes [[1, 2], [1, 2]])) := rfl
  rw [h0, eval1_rm, eval1_refidx]
  rw [show ([[(1 : ℚ), 2], [1, 2]].getD 0 []) = [1, 2] from rfl, eval1_gnf]
  unfold gmeanOR
  rw [show allSome [some (1 : ℝ), some 1] = some [1, 1] from rfl]
  simp only [Option.map_some']
  unfold gmeanR
  norm_num

lemma eval1_factors : TMM.get_norm_factors (TMM.fit (3/10) (1/20) [[1, 2], [1, 2]])
    [[1, 2], [1, 2]] = [some 1, some 1] := by
  unfold TMM.get_norm_factors
  rw [show (TMM.fit (3/10) (1/20) [[1, 2], [1, 2]]).m_trim = 3/10 from rfl,
    show (TMM.fit (3/10) (1/20) [[1, 2], [1, 2]]).a_trim = 1/20 from rfl,
    eval1_ref, eval1_fitgm, eval1_gnf]
  simp [divOO]

/-- Witness for C1: the UQ half at the matrix `[[1], [2]]` (raw factors
both 1) and the TMM half at `[[1, 2], [1, 2]]` (raw factors both 1). -/
theorem C1_gmean_of_factors_one_witness :
    gmeanOR (UQ.get_norm_factors (UQ.fit [[1], [2]]) [[1], [2]]) = some 1 ∧
    gmeanOR (TMM.get_norm_factors (TMM.fit (3/10) (1/20) [[1, 2], [1, 2]])
      [[1, 2], [1, 2]]) = some 1 := by
  have hraw : UQ.raw_factors [[1], [2]] = [some 1, some 1] := by
    norm_num [UQ.raw_factors, remove_zero_genes, keptGenes, nCols, colSum, List.range_succ,
      List.filter_cons, List.getD, scoreatpercentile75, sortQ, List.insertionSort,
      List.orderedInsert, library_size, fdiv, Int.toNat]
  refine ⟨C1_gmean_of_factors_one.1 [[1], [2]] [1, 1] (by simp) ?_ (by norm_num),
    C1_gmean_of_factors_one.2 (3/10) (1/20) [[1, 2], [1, 2]] [1, 1] (by simp) ?_⟩
  · rw [hraw]
    rfl
  · rw [eval1_ref, eval1_gnf]
    rfl

lemma eval3_rm : remove_zero_genes [[1, 3], [3, 1], [1, 1]] = [[1, 3], [3, 1], [1, 1]] := by
  norm_num [remove_zero_genes, keptGenes, nCols, colSum, List.range_succ, List.filter_cons,
    List.getD]

lemma eval3_raw : UQ.raw_factors [[1, 3], [3, 1], [1, 1]] =
    [some (5/8), some (5/8), some (1/2)] := by
  norm_num [UQ.raw_factors, eval3_rm, scoreatpercentile75, sortQ, List.insertionSort,
    List.orderedInsert, library_size, fdiv, List.getD, Int.toNat]

/-- Witness for C3 at the matrix `[[1,3],[3,1],[1,1]]`: the raw UQ factors
are `[5/8, 5/8, 1/2]`; rows 0 and 1 tie at minimal deviation from the mean
and row 0, the earliest, becomes the reference. -/
theorem C3_tmm_reference_selection_witness :
    (TMM.fit (3/10) (1/20) [[1, 3], [3, 1], [1, 1]]).ref_ =
      (remove_zero_genes [[1, 3], [3, 1], [1, 1]]).getD
        (firstMinIdx ([(5 : ℚ)/8, 5/8, 1/2].map
          (fun q => |q - meanQ [(5 : ℚ)/8, 5/8, 1/2]|))) [] ∧
    (∀ y ∈ [(5 : ℚ)/8, 5/8, 1/2].map (fun q => |q - meanQ [(5 : ℚ)/8, 5/8, 1/2]|),
      ([(5 : ℚ)/8, 5/8, 1/2].map (fun q => |q - meanQ [(5 : ℚ)/8, 5/8, 1/2]|)).getD
        (firstMinIdx ([(5 : ℚ)/8, 5/8, 1/2].map
          (fun q => |q - meanQ [(5 : ℚ)/8, 5/8, 1/2]|))) 0 ≤ y) ∧
    (∀ j < firstMinIdx ([(5 : ℚ)/8, 5/8, 1/2].map
        (fun q => |q - meanQ [(5 : ℚ)/8, 5/8, 1/2]|)),
      ([(5 : ℚ)/8, 5/8, 1/2].map (fun q => |q - meanQ [(5 : ℚ)/8, 5/8, 1/2]|)).getD
        (firstMinIdx ([(5 : ℚ)/8, 5/8, 1/2].map
          (fun q => |q - meanQ [(5 : ℚ)/8, 5/8, 1/2]|))) 0 <
      ([(5 : ℚ)/8, 5/8, 1/2].map (fun q => |q - meanQ [(5 : ℚ)/8, 5/8, 1/2]|)).getD j 0) ∧
    (∀ Y, TMM.get_norm_factors (TMM.fit (3/10) (1/20) [[1, 3], [3, 1], [1, 1]]) Y =
      (TMM._get_norm_factors (3/10) (1/20)
        ((remove_zero_genes [[1, 3], [3, 1], [1, 1]]).getD
          (firstMinIdx ([(5 : ℚ)/8, 5/8, 1/2].map
            (fun q => |q - meanQ [(5 : ℚ)/8, 5/8, 1/2]|))) []) Y).map
        (fun f => divOO f (TMM.fit (3/10) (1/20) [[1, 3], [3, 1], [1, 1]]).geometric_mean_)) :=
  C3_tmm_reference_selection (3/10) (1/20) [[1, 3], [3, 1], [1, 1]] [5/8, 5/8, 1/2]
    (by rw [eval3_rm, eval3_raw]; rfl) (by norm_num) (by simp)

/-- Multiplication of possibly-NaN reals (NaN absorbs, as in numpy). -/
noncomputable def mulO (a b : Option ℝ) : Option ℝ :=
  match a, b with
  | some a, some b => some (a * b)
  | _, _ => none

/-- Spec-side description (claim C8): the output matrix is the input with
each row divided entrywise by that sample's normalization factor, nothing
else. -/
noncomputable def spec_divide (X : Mat) (factors : List (Option ℝ)) :
    List (List (Option ℝ)) :=
  (List.range X.length).map (fun i => (X.getD i []).map (fun (x : ℚ) =>
    match factors.getD i none with
    | none => none
    | some f => if f = 0 then none else some ((x : ℝ) / f)))

lemma tmm_gnf_length (m_trim a_trim : ℚ) (ref : List ℚ) (X : Mat) :
    (TMM._get_norm_factors m_trim a_trim ref X).length = X.length := by
  unfold TMM._get_norm_factors
  simp [remove_zero_genes_length]

lemma transform_div_eq_spec (X : Mat) (factors : List (Option ℝ))
    (hlen : factors.length = X.length) :
    (X.zip factors).map (fun p => p.1.map (fun x => CUF.divEntry x p.2)) =
      spec_divide X factors := by
  apply List.ext_getElem (by simp [spec_divide, hlen])
  intro i h1 h2
  have hiX : i < X.length := by simpa [hlen] using h1
  have hif : i < factors.length := by simpa [hlen] using h1
  simp only [spec_divide, List.getElem_map, List.getElem_zip, List.getElem_range]
  rw [List.getD_eq_getElem _ _ hiX]
  apply List.map_congr_left
  intro x _
  rw [List.getD_eq_getElem _ _ hif]
  unfold CUF.divEntry
  rfl

/-- C8 as amended: for fitted CUF and CTF estimators, `transform` is
exactly the input with each row divided by the sample's factor (no
library-size step and no 1e6 scaling), and wherever the sample's factor is
a defined nonzero number, multiplying a transformed entry back by the
factor recovers the input entry exactly.  (A NaN factor, as produced for
an all-zero sample, makes the transformed row NaN instead, which is what
makes the unamended round-trip claim fail.) -/
theorem C8_cuf_ctf_roundtrip :
    (∀ (st : UQ.Fitted) (X : Mat),
      CUF.transform st X = spec_divide X (UQ.get_norm_factors st X)) ∧
    (∀ (st : TMM.Fitted) (X : Mat),
      CTF.transform st X = spec_divide X (TMM.get_norm_factors st X)) ∧
    (∀ (st : UQ.Fitted) (X : Mat) (i g : ℕ) (f : ℝ), i < X.length →
      g < (X.getD i []).length →
      (UQ.get_norm_factors st X).getD i none = some f → f ≠ 0 →
      mulO (((CUF.transform st X).getD i []).getD g none) (some f) =
        some (((X.getD i []).getD g 0 : ℚ) : ℝ)) ∧
    (∀ (st : TMM.Fitted) (X : Mat) (i g : ℕ) (f : ℝ), i < X.length →
      g < (X.getD i []).length →
      (TMM.get_norm_factors st X).getD i none = some f → f ≠ 0 →
      mulO (((CTF.transform st X).getD i []).getD g none) (some f) =
        some (((X.getD i []).getD g 0 : ℚ) : ℝ)) := by
  have hroundtrip : ∀ (X : Mat) (factors : List (Option ℝ)) (i g : ℕ) (f : ℝ),
      factors.length = X.length → i < X.length → g < (X.getD i []).length →
      factors.getD i none = some f → f ≠ 0 →
      mulO ((((X.zip factors).map
          (fun p => p.1.map (fun x => CUF.divEntry x p.2))).getD i []).getD g none) (some f) =
        some (((X.getD i []).getD g 0 : ℚ) : ℝ) := by
    intro X factors i g f hlen hi hg hf hf0
    have hzlen : i < ((X.zip factors).map
        (fun p => p.1.map (fun x => CUF.divEntry x p.2))).length := by
      simp [hlen]
      omega
    rw [List.getD_eq_getElem _ _ hzlen, List.getElem_map, List.getElem_zip]
    have hgi : g < (X[i]).length := by
      rw [List.getD_eq_getElem _ _ hi] at hg
      exact hg
    rw [getD_map_getD _ _ g hgi 0 none]
    have hfi : factors[i] = some f := by
      rw [List.getD_eq_getElem _ _ (by rw [hlen]; exact hi)] at hf
      exact hf
    rw [hfi]
    unfold CUF.divEntry mulO
    simp only [if_neg hf0]
    rw [div_mul_cancel₀ _ hf0]
    rw [List.getD_eq_getElem _ _ hi]
  have huql : ∀ (st : UQ.Fitted) (X : Mat), (UQ.get_norm_factors st X).length = X.length := by
    intro st X
    unfold UQ.get_norm_factors
    simp [raw_factors_length]
  have html : ∀ (st : TMM.Fitted) (X : Mat),
      (TMM.get_norm_factors st X).length = X.length := by
    intro st X
    unfold TMM.get_norm_factors
    simp [tmm_gnf_length]
  refine ⟨?_, ?_, ?_, ?_⟩
  · intro st X
    exact transform_div_eq_spec X _ (huql st X)
  · intro st X
    exact transform_div_eq_spec X _ (html st X)
  · intro st X i g f hi hg hf hf0
    exact hroundtrip X _ i g f (huql st X) hi hg hf hf0
  · intro st X i g f hi hg hf hf0
    exact hroundtrip X _ i g f (html st X) hi hg hf hf0

lemma eval_raw_10 : UQ.raw_factors [[1], [0]] = [some 1, none] := by
  norm_num [UQ.raw_factors, remove_zero_genes, keptGenes, nCols, colSum,
    scoreatpercentile75, sortQ, List.insertionSort, List.orderedInsert,
    library_size, fdiv, List.range_succ, List.filter_cons, List.getD, Int.toNat]

/-- Counterexample to C8 as stated: fit CUF on `[[1], [1]]` and transform
`[[1], [0]]`.  The all-zero second sample has a NaN factor, so its
transformed row is NaN and multiplying back by the factor yields NaN, not
the original entry 0. -/
theorem C8_counterexample :
    mulO (((CUF.transform (UQ.fit [[1], [1]]) [[1], [0]]).getD 1 []).getD 0 none)
      ((UQ.get_norm_factors (UQ.fit [[1], [1]]) [[1], [0]]).getD 1 none) ≠
      some ((((([[1], [0]] : Mat).getD 1 []).getD 0 0 : ℚ) : ℝ)) := by
  have hfac : (UQ.get_norm_factors (UQ.fit [[1], [1]]) [[1], [0]]).getD 1 none = none := by
    unfold UQ.get_norm_factors
    rw [eval_raw_10]
    simp [divQR]
  rw [hfac]
  have htr : ((CUF.transform (UQ.fit [[1], [1]]) [[1], [0]]).getD 1 []).getD 0 none = none := by
    unfold CUF.transform UQ.get_norm_factors
    rw [eval_raw_10]
    simp [CUF.divEntry, divQR]
  rw [htr]
  unfold mulO
  simp

lemma eval_uq_fit_11 : (UQ.fit [[1], [1]]).geometric_mean_ = some 1 := by
  have hraw : UQ.raw_factors [[1], [1]] = [some 1, some 1] := by
    norm_num [UQ.raw_factors, remove_zero_genes, keptGenes, nCols, colSum,
      scoreatpercentile75, sortQ, List.insertionSort, List.orderedInsert,
      library_size, fdiv, List.range_succ, List.filter_cons, List.getD, Int.toNat]
  have h0 : (UQ.fit [[1], [1]]).geometric_mean_ = gmeanOQ (UQ.raw_factors [[1], [1]]) := rfl
  rw [h0, hraw]
  unfold gmeanOQ
  rw [show allSome [some (1 : ℚ), some 1] = some [1, 1] from rfl]
  simp only [Option.map_some']
  unfold gmean
  norm_num

/-- Witness for C8: the CUF round trip at entry (0,0) of `[[2], [4]]`
under the estimator fitted on `[[1], [1]]`, and the CTF round trip at
entry (0,0) of `[[1, 2], [1, 2]]` under the TMM estimator fitted on the
same matrix; both factors are 1. -/
theorem C8_cuf_ctf_roundtrip_witness :
    mulO (((CUF.transform (UQ.fit [[1], [1]]) [[2], [4]]).getD 0 []).getD 0 none) (some 1) =
      some ((((([[2], [4]] : Mat).getD 0 []).getD 0 0 : ℚ) : ℝ)) ∧
    mulO (((CTF.transform (TMM.fit (3/10) (1/20) [[1, 2], [1, 2]])
        [[1, 2], [1, 2]]).getD 0 []).getD 0 none) (some 1) =
      some ((((([[1, 2], [1, 2]] : Mat).getD 0 []).getD 0 0 : ℚ) : ℝ)) := by
  have hfacU : (UQ.get_norm_factors (UQ.fit [[1], [1]]) [[2], [4]]).getD 0 none = some 1 := by
    have hraw : UQ.raw_factors [[2], [4]] = [some 1, some 1] := by
      norm_num [UQ.raw_factors, remove_zero_genes, keptGenes, nCols, colSum,
        scoreatpercentile75, sortQ, List.insertionSort, List.orderedInsert,
        library_size, fdiv, List.range_succ, List.filter_cons, List.getD, Int.toNat]
    unfold UQ.get_norm_factors
    rw [hraw, eval_uq_fit_11]
    simp [divQR]
  have hfacT : (TMM.get_norm_factors (TMM.fit (3/10) (1/20) [[1, 2], [1, 2]])
      [[1, 2], [1, 2]]).getD 0 none = some 1 := by
    rw [eval1_factors]
    rfl
  exact ⟨C8_cuf_ctf_roundtrip.2.2.1 (UQ.fit [[1], [1]]) [[2], [4]] 0 0 1
      (by norm_num) (by norm_num) hfacU one_ne_zero,
    C8_cuf_ctf_roundtrip.2.2.2 (TMM.fit (3/10) (1/20) [[1, 2], [1, 2]]) [[1, 2], [1, 2]] 0 0 1
      (by norm_num) (by norm_num) hfacT one_ne_zero⟩

namespace TMM

/-- Spec-side description (claim C2) of the trimming decision: both the
average-tie rank of the gene's M value and the average-tie rank of its A
value lie in the band `[floor(n * trim) + 1, n - floor(n * trim)]`, `n`
being the number of genes left after the finiteness filter. -/
noncomputable def spec_keep (m_trim a_trim lib libRef : ℚ) (pairs : List (ℚ × ℚ))
    (i : ℕ) : Prop :=
  (((⌊((finite_genes lib libRef pairs).length : ℚ) * m_trim⌋ : ℤ) + 1 : ℚ) ≤
      rankdata (m_vals lib libRef pairs) ((m_vals lib libRef pairs).getD i 0) ∧
    rankdata (m_vals lib libRef pairs) ((m_vals lib libRef pairs).getD i 0) ≤
      ((finite_genes lib libRef pairs).length : ℚ) -
        (⌊((finite_genes lib libRef pairs).length : ℚ) * m_trim⌋ : ℤ)) ∧
  (((⌊((finite_genes lib libRef pairs).length : ℚ) * a_trim⌋ : ℤ) + 1 : ℚ) ≤
      rankdata (a_vals lib libRef pairs) ((a_vals lib libRef pairs).getD i 0) ∧
    rankdata (a_vals lib libRef pairs) ((a_vals lib libRef pairs).getD i 0) ≤
      ((finite_genes lib libRef pairs).length : ℚ) -
        (⌊((finite_genes lib libRef pairs).length : ℚ) * a_trim⌋ : ℤ))

open scoped Classical in
/-- Spec-side description (claim C2) of the unnormalized factor: 2 raised
to the sum of `M / w` over the kept genes divided by the sum of `1 / w`
over the kept genes (weights divided into M, not multiplied); a zero
denominator is the NaN case. -/
noncomputable def spec_factor (m_trim a_trim lib libRef : ℚ) (pairs : List (ℚ × ℚ)) :
    Option ℝ :=
  let kept := (List.range (finite_genes lib libRef pairs).length).filter
    (fun i => decide (spec_keep m_trim a_trim lib libRef pairs i))
  let num : ℝ := (kept.map (fun i =>
    (m_vals lib libRef pairs).getD i 0 / (((w_vals lib libRef pairs).getD i 0 : ℚ) : ℝ))).sum
  let den : ℚ := (kept.map (fun i => 1 / (w_vals lib libRef pairs).getD i 0)).sum
  if den = 0 then none else some ((2 : ℝ) ^ (num / ((den : ℚ) : ℝ)))

end TMM

lemma sum_map_filter_eq_sum_ite {M : Type} [AddCommMonoid M] (l : List ℕ) (p : ℕ → Prop)
    [DecidablePred p] (f : ℕ → M) :
    ((l.filter (fun i => decide (p i))).map f).sum =
      (l.map (fun i => if p i then f i else 0)).sum := by
  induction l with
  | nil => simp
  | cons a t ih =>
      by_cases hp : p a
      · rw [List.filter_cons_of_pos (by simpa using hp)]
        simp only [List.map_cons, List.sum_cons, ih, if_pos hp]
      · rw [List.filter_cons_of_neg (by simpa using hp)]
        simp only [List.map_cons, List.sum_cons, ih, if_neg hp]
        rw [zero_add]

open scoped Classical in
/-- C2: per sample, after discarding genes with non-finite M or A values,
the code keeps a gene exactly when the average-tie ranks of its M and A
values fall in `[floor(n*trim)+1, n - floor(n*trim)]` for the respective
trim fraction, and the unnormalized factor is 2 to the power of the sum of
`M / w` over kept genes divided by the sum of `1 / w` over kept genes,
the weight being divided into M, not multiplied. -/
theorem C2_tmm_trim_and_factor (m_trim a_trim lib libRef : ℚ) (pairs : List (ℚ × ℚ))
    (i : ℕ) :
    (TMM.keep m_trim a_trim lib libRef pairs i ↔
      TMM.spec_keep m_trim a_trim lib libRef pairs i) ∧
    TMM.sample_factor m_trim a_trim lib libRef pairs =
      TMM.spec_factor m_trim a_trim lib libRef pairs := by
  have hkeep : ∀ j, TMM.keep m_trim a_trim lib libRef pairs j ↔
      TMM.spec_keep m_trim a_trim lib libRef pairs j := by
    intro j
    simp only [TMM.keep, TMM.spec_keep]
    constructor
    · rintro ⟨h1, h2, h3, h4⟩
      exact ⟨⟨h1, by push_cast at h2 ⊢; linarith⟩, ⟨h3, by push_cast at h4 ⊢; linarith⟩⟩
    · rintro ⟨⟨h1, h2⟩, ⟨h3, h4⟩⟩
      exact ⟨h1, by push_cast at h2 ⊢; linarith, h3, by push_cast at h4 ⊢; linarith⟩
  refine ⟨hkeep i, ?_⟩
  unfold TMM.sample_factor TMM.spec_factor
  simp only []
  have hnum : TMM.factor_num m_trim a_trim lib libRef pairs =
      (((List.range (TMM.finite_genes lib libRef pairs).length).filter
        (fun j => decide (TMM.spec_keep m_trim a_trim lib libRef pairs j))).map (fun j =>
          (TMM.m_vals lib libRef pairs).getD j 0 /
            (((TMM.w_vals lib libRef pairs).getD j 0 : ℚ) : ℝ))).sum := by
    rw [sum_map_filter_eq_sum_ite]
    unfold TMM.factor_num
    congr 1
    apply List.map_congr_left
    intro j _
    exact if_congr (hkeep j) rfl rfl
  have hden : TMM.factor_den m_trim a_trim lib libRef pairs =
      (((List.range (TMM.finite_genes lib libRef pairs).length).filter
        (fun j => decide (TMM.spec_keep m_trim a_trim lib libRef pairs j))).map (fun j =>
          1 / (TMM.w_vals lib libRef pairs).getD j 0)).sum := by
    rw [sum_map_filter_eq_sum_ite]
    unfold TMM.factor_den
    congr 1
    apply List.map_congr_left
    intro j _
    exact if_congr (hkeep j) rfl rfl
  rw [hnum, hden]

/-- C6 as amended: a sample for which no gene remains kept after trimming
has factor exponent `0 / 0`, hence an unnormalized factor of NaN
(`none`), not 1, and the NaN propagates through the geometric-mean
normalization of `get_norm_factors` — again NaN, not 1. -/
theorem C6_tmm_all_trimmed_nan (m_trim a_trim : ℚ) (ref : List ℚ) (X : Mat) (gm : Option ℝ)
    (i : ℕ) (hi : i < X.length)
    (hkeep : ∀ j < (TMM.finite_genes (library_size ((remove_zero_genes X).getD i []))
        (library_size ref) (((remove_zero_genes X).getD i []).zip ref)).length,
      ¬ TMM.keep m_trim a_trim (library_size ((remove_zero_genes X).getD i []))
        (library_size ref) (((remove_zero_genes X).getD i []).zip ref) j) :
    (TMM._get_norm_factors m_trim a_trim ref X).getD i (some 37) = none ∧
    (TMM.get_norm_factors ⟨m_trim, a_trim, ref, gm⟩ X).getD i (some 37) = none := by
  have hden : TMM.factor_den m_trim a_trim (library_size ((remove_zero_genes X).getD i []))
      (library_size ref) (((remove_zero_genes X).getD i []).zip ref) = 0 := by
    unfold TMM.factor_den
    apply List.sum_eq_zero
    intro x hx
    rcases List.mem_map.mp hx with ⟨j, hj, hjx⟩
    have hjn := List.mem_range.mp hj
    rw [← hjx, if_neg (hkeep j hjn)]
  have hsf : TMM.sample_factor m_trim a_trim
      (library_size ((remove_zero_genes X).getD i [])) (library_size ref)
      (((remove_zero_genes X).getD i []).zip ref) = none := by
    unfold TMM.sample_factor
    rw [if_pos hden]
  have hi' : i < (remove_zero_genes X).length := by rwa [remove_zero_genes_length]
  have hraw : (TMM._get_norm_factors m_trim a_trim ref X).getD i (some 37) = none := by
    unfold TMM._get_norm_factors
    rw [getD_map_getD _ _ i hi' [] (some 37)]
    exact hsf
  refine ⟨hraw, ?_⟩
  unfold TMM.get_norm_factors
  have hlen2 : i < (TMM._get_norm_factors m_trim a_trim ref X).length := by
    rwa [tmm_gnf_length]
  rw [getD_map_getD _ _ i hlen2 (some 37) (some 37)]
  have : (TMM._get_norm_factors m_trim a_trim ref X).getD i (some 37) = none := hraw
  rw [this]
  rfl

/-! Concrete evaluations on the 10-gene matrix whose second sample has 6
genes tied below the M-rank band and 4 genes tied above it, so that the
trimming keeps nothing. -/

lemma eval6_rm : remove_zero_genes
    [[1, 1, 1, 1, 1, 1, 1, 1, 1, 1], [1, 1, 1, 1, 1, 1, 2, 2, 2, 2]] =
    [[1, 1, 1, 1, 1, 1, 1, 1, 1, 1], [1, 1, 1, 1, 1, 1, 2, 2, 2, 2]] := by
  norm_num [remove_zero_genes, keptGenes, nCols, colSum, List.range_succ, List.filter_cons,
    List.getD]

lemma eval6_raw : UQ.raw_factors
    [[1, 1, 1, 1, 1, 1, 1, 1, 1, 1], [1, 1, 1, 1, 1, 1, 2, 2, 2, 2]] =
    [some (1/10), some (1/7)] := by
  norm_num [UQ.raw_factors, eval6_rm, scoreatpercentile75, sortQ, List.insertionSort,
    List.orderedInsert, library_size, fdiv, List.getD, Int.toNat]

lemma eval6_ref : (TMM.fit (3/10) (1/20)
    [[1, 1, 1, 1, 1, 1, 1, 1, 1, 1], [1, 1, 1, 1, 1, 1, 2, 2, 2, 2]]).ref_ =
    [1, 1, 1, 1, 1, 1, 1, 1, 1, 1] := by
  have hall : allSome (UQ.raw_factors
      [[1, 1, 1, 1, 1, 1, 1, 1, 1, 1], [1, 1, 1, 1, 1, 1, 2, 2, 2, 2]]) =
      some [1/10, 1/7] := by
    rw [eval6_raw]
    rfl
  have h0 : (TMM.fit (3/10) (1/20)
      [[1, 1, 1, 1, 1, 1, 1, 1, 1, 1], [1, 1, 1, 1, 1, 1, 2, 2, 2, 2]]).ref_ =
      (remove_zero_genes [[1, 1, 1, 1, 1, 1, 1, 1, 1, 1], [1, 1, 1, 1, 1, 1, 2, 2, 2, 2]]).getD
        (TMM._get_ref_index (remove_zero_genes
          [[1, 1, 1, 1, 1, 1, 1, 1, 1, 1], [1, 1, 1, 1, 1, 1, 2, 2, 2, 2]])) [] := rfl
  rw [h0, eval6_rm]
  rw [tmm_get_ref_index_char _ [1/10, 1/7] hall (by norm_num) (by simp)]
  norm_num [meanQ, firstMinIdx, List.findIdx_cons]

lemma eval6_fin : TMM.finite_genes 14 10
    [((1 : ℚ), (1 : ℚ)), (1, 1), (1, 1), (1, 1), (1, 1), (1, 1), (2, 1), (2, 1), (2, 1), (2, 1)] =
    [(1, 1), (1, 1), (1, 1), (1, 1), (1, 1), (1, 1), (2, 1), (2, 1), (2, 1), (2, 1)] := by
  norm_num [-Prod.mk_one_one, TMM.finite_genes, TMM.finite_gene, List.filter_cons]

lemma eval6_keepQ : ∀ j < 10, ¬ TMM.keepQ (3/10) (1/20) 14 10
    [((1 : ℚ), (1 : ℚ)), (1, 1), (1, 1), (1, 1), (1, 1), (1, 1), (2, 1), (2, 1), (2, 1), (2, 1)]
    j := by
  have hmq : TMM.m_quots 14 10
      [((1 : ℚ), (1 : ℚ)), (1, 1), (1, 1), (1, 1), (1, 1), (1, 1), (2, 1), (2, 1), (2, 1), (2, 1)] =
      [5/7, 5/7, 5/7, 5/7, 5/7, 5/7, 10/7, 10/7, 10/7, 10/7] := by
    norm_num [-Prod.mk_one_one, TMM.m_quots, eval6_fin, TMM.m_quot]
  have hlen : (TMM.finite_genes 14 10
      [((1 : ℚ), (1 : ℚ)), (1, 1), (1, 1), (1, 1), (1, 1), (1, 1), (2, 1), (2, 1), (2, 1), (2, 1)]).length
      = 10 := by
    rw [eval6_fin]
    rfl
  intro j hj
  simp only [TMM.keepQ]
  rw [hmq, hlen]
  interval_cases j <;>
    norm_num [rankdata, List.countP_cons, List.countP_nil, List.getD, Int.toNat]

lemma eval6_sf : TMM.sample_factor (3/10) (1/20) 14 10
    [((1 : ℚ), (1 : ℚ)), (1, 1), (1, 1), (1, 1), (1, 1), (1, 1), (2, 1), (2, 1), (2, 1), (2, 1)] =
    none := by
  rw [TMM.sample_factor_char]
  have hlen : (TMM.finite_genes 14 10
      [((1 : ℚ), (1 : ℚ)), (1, 1), (1, 1), (1, 1), (1, 1), (1, 1), (2, 1), (2, 1), (2, 1), (2, 1)]).length
      = 10 := by
    rw [eval6_fin]
    rfl
  have hden : TMM.factor_denQ (3/10) (1/20) 14 10
      [((1 : ℚ), (1 : ℚ)), (1, 1), (1, 1), (1, 1), (1, 1), (1, 1), (2, 1), (2, 1), (2, 1), (2, 1)]
      = 0 := by
    unfold TMM.factor_denQ
    apply List.sum_eq_zero
    intro x hx
    rcases List.mem_map.mp hx with ⟨j, hj, hjx⟩
    have hjn := List.mem_range.mp hj
    rw [hlen] at hjn
    rw [← hjx, if_neg (eval6_keepQ j hjn)]
  rw [if_pos hden]

/-- Counterexample to C6 as stated: in the fitted TMM call on the matrix
whose second sample has six genes tied below the M-rank band and four
above it, that sample keeps zero genes and its unnormalized factor is
NaN (`none`), not 1. -/
theorem C6_counterexample :
    (TMM._get_norm_factors (3/10) (1/20)
      (TMM.fit (3/10) (1/20)
        [[1, 1, 1, 1, 1, 1, 1, 1, 1, 1], [1, 1, 1, 1, 1, 1, 2, 2, 2, 2]]).ref_
      [[1, 1, 1, 1, 1, 1, 1, 1, 1, 1], [1, 1, 1, 1, 1, 1, 2, 2, 2, 2]]).getD 1 (some 37) =
      none ∧
    (TMM._get_norm_factors (3/10) (1/20)
      (TMM.fit (3/10) (1/20)
        [[1, 1, 1, 1, 1, 1, 1, 1, 1, 1], [1, 1, 1, 1, 1, 1, 2, 2, 2, 2]]).ref_
      [[1, 1, 1, 1, 1, 1, 1, 1, 1, 1], [1, 1, 1, 1, 1, 1, 2, 2, 2, 2]]).getD 1 (some 37) ≠
      some 1 := by
  have h : (TMM._get_norm_factors (3/10) (1/20)
      (TMM.fit (3/10) (1/20)
        [[1, 1, 1, 1, 1, 1, 1, 1, 1, 1], [1, 1, 1, 1, 1, 1, 2, 2, 2, 2]]).ref_
      [[1, 1, 1, 1, 1, 1, 1, 1, 1, 1], [1, 1, 1, 1, 1, 1, 2, 2, 2, 2]]).getD 1 (some 37) =
      none := by
    rw [eval6_ref]
    unfold TMM._get_norm_factors
    rw [eval6_rm]
    simp only [List.map_cons, List.map_nil]
    rw [show library_size [(1 : ℚ), 1, 1, 1, 1, 1, 2, 2, 2, 2] = 14 by norm_num [library_size],
      show library_size [(1 : ℚ), 1, 1, 1, 1, 1, 1, 1, 1, 1] = 10 by norm_num [library_size]]
    rw [show ([(1 : ℚ), 1, 1, 1, 1, 1, 2, 2, 2, 2].zip [(1 : ℚ), 1, 1, 1, 1, 1, 1, 1, 1, 1]) =
      [((1 : ℚ), (1 : ℚ)), (1, 1), (1, 1), (1, 1), (1, 1), (1, 1), (2, 1), (2, 1), (2, 1), (2, 1)]
      from rfl]
    rw [eval6_sf]
    rfl
  exact ⟨h, by rw [h]; simp⟩

/-- Witness for C6 as amended, at the same 10-gene matrix: the trimming
keeps nothing for sample 1 and its factor is NaN both before and after
the geometric-mean step. -/
theorem C6_tmm_all_trimmed_nan_witness :
    (TMM._get_norm_factors (3/10) (1/20) [1, 1, 1, 1, 1, 1, 1, 1, 1, 1]
      [[1, 1, 1, 1, 1, 1, 1, 1, 1, 1], [1, 1, 1, 1, 1, 1, 2, 2, 2, 2]]).getD 1 (some 37) =
      none ∧
    (TMM.get_norm_factors ⟨3/10, 1/20, [1, 1, 1, 1, 1, 1, 1, 1, 1, 1], some 1⟩
      [[1, 1, 1, 1, 1, 1, 1, 1, 1, 1], [1, 1, 1, 1, 1, 1, 2, 2, 2, 2]]).getD 1 (some 37) =
      none := by
  apply C6_tmm_all_trimmed_nan (3/10) (1/20) [1, 1, 1, 1, 1, 1, 1, 1, 1, 1]
    [[1, 1, 1, 1, 1, 1, 1, 1, 1, 1], [1, 1, 1, 1, 1, 1, 2, 2, 2, 2]] (some 1) 1 (by norm_num)
  rw [eval6_rm]
  rw [show (([[(1 : ℚ), 1, 1, 1, 1, 1, 1, 1, 1, 1], [1, 1, 1, 1, 1, 1, 2, 2, 2, 2]] :
      Mat).getD 1 []) = [1, 1, 1, 1, 1, 1, 2, 2, 2, 2] from rfl]
  rw [show library_size [(1 : ℚ), 1, 1, 1, 1, 1, 2, 2, 2, 2] = 14 by norm_num [library_size],
    show library_size [(1 : ℚ), 1, 1, 1, 1, 1, 1, 1, 1, 1] = 10 by norm_num [library_size]]
  rw [show ([(1 : ℚ), 1, 1, 1, 1, 1, 2, 2, 2, 2].zip [(1 : ℚ), 1, 1, 1, 1, 1, 1, 1, 1, 1]) =
    [((1 : ℚ), (1 : ℚ)), (1, 1), (1, 1), (1, 1), (1, 1), (1, 1), (2, 1), (2, 1), (2, 1), (2, 1)]
    from rfl]
  intro j hj
  rw [TMM.keep_iff_keepQ _ _ _ _ _ _ hj]
  apply eval6_keepQ
  rw [show (TMM.finite_genes 14 10
    [((1 : ℚ), (1 : ℚ)), (1, 1), (1, 1), (1, 1), (1, 1), (1, 1), (2, 1), (2, 1), (2, 1), (2, 1)]).length
    = 10 from by rw [eval6_fin]; rfl] at hj
  exact hj

/-- The claim-C9 transformation: one sample's counts all multiplied by 2
(a row-wise scaling of the count matrix). -/
def scaleRow (X : Mat) (i : ℕ) : Mat :=
  X.set i ((X.getD i []).map (fun x => 2 * x))

/-! Concrete evaluations on `[[2,1],[1,2]]` and on the same matrix with
its second row doubled, used for the C9 counterexample. -/

lemma eval9_rm : remove_zero_genes [[2, 1], [1, 2]] = [[2, 1], [1, 2]] := by
  norm_num [remove_zero_genes, keptGenes, nCols, colSum, List.range_succ, List.filter_cons,
    List.getD]

lemma eval9_rm' : remove_zero_genes [[2, 1], [2, 4]] = [[2, 1], [2, 4]] := by
  norm_num [remove_zero_genes, keptGenes, nCols, colSum, List.range_succ, List.filter_cons,
    List.getD]

lemma eval9_raw : UQ.raw_factors [[2, 1], [1, 2]] = [some (7/12), some (7/12)] := by
  norm_num [UQ.raw_factors, eval9_rm, scoreatpercentile75, sortQ, List.insertionSort,
    List.orderedInsert, library_size, fdiv, List.getD, Int.toNat]

lemma eval9_raw' : UQ.raw_factors [[2, 1], [2, 4]] = [some (7/12), some (7/12)] := by
  norm_num [UQ.raw_factors, eval9_rm', scoreatpercentile75, sortQ, List.insertionSort,
    List.orderedInsert, library_size, fdiv, List.getD, Int.toNat]

lemma eval9_refidx : TMM._get_ref_index [[2, 1], [1, 2]] = 0 := by
  have hall : allSome (UQ.raw_factors [[2, 1], [1, 2]]) = some [7/12, 7/12] := by
    rw [eval9_raw]
    rfl
  rw [tmm_get_ref_index_char [[2, 1], [1, 2]] [7/12, 7/12] hall (by norm_num) (by simp)]
  norm_num [meanQ, firstMinIdx, List.findIdx_cons]

lemma eval9_refidx' : TMM._get_ref_index [[2, 1], [2, 4]] = 0 := by
  have hall : allSome (UQ.raw_factors [[2, 1], [2, 4]]) = some [7/12, 7/12] := by
    rw [eval9_raw']
    rfl
  rw [tmm_get_ref_index_char [[2, 1], [2, 4]] [7/12, 7/12] hall (by norm_num) (by simp)]
  norm_num [meanQ, firstMinIdx, List.findIdx_cons]

lemma eval9_ref : (TMM.fit (3/10) (1/20) [[2, 1], [1, 2]]).ref_ = [2, 1] := by
  have h0 : (TMM.fit (3/10) (1/20) [[2, 1], [1, 2]]).ref_ =
      (remove_zero_genes [[2, 1], [1, 2]]).getD
        (TMM._get_ref_index (remove_zero_genes [[2, 1], [1, 2]])) [] := rfl
  rw [h0, eval9_rm, eval9_refidx]
  rfl

lemma eval9_ref' : (TMM.fit (3/10) (1/20) [[2, 1], [2, 4]]).ref_ = [2, 1] := by
  have h0 : (TMM.fit (3/10) (1/20) [[2, 1], [2, 4]]).ref_ =
      (remove_zero_genes [[2, 1], [2, 4]]).getD
        (TMM._get_ref_index (remove_zero_genes [[2, 1], [2, 4]])) [] := rfl
  rw [h0, eval9_rm', eval9_refidx']
  rfl

lemma eval9_s0 : TMM.sample_factor (3/10) (1/20) 3 3 [((2 : ℚ), (2 : ℚ)), (1, 1)] = some 1 := by
  have hfin : TMM.finite_genes 3 3 [((2 : ℚ), (2 : ℚ)), (1, 1)] = [(2, 2), (1, 1)] := by
    norm_num [-Prod.mk_one_one, TMM.finite_genes, TMM.finite_gene, List.filter_cons]
  have hmq : TMM.m_quots 3 3 [((2 : ℚ), (2 : ℚ)), (1, 1)] = [1, 1] := by
    norm_num [-Prod.mk_one_one, TMM.m_quots, hfin, TMM.m_quot]
  have haq : TMM.a_prods 3 3 [((2 : ℚ), (2 : ℚ)), (1, 1)] = [4/9, 1/9] := by
    norm_num [-Prod.mk_one_one, TMM.a_prods, hfin, TMM.a_prod]
  have hwv : TMM.w_vals 3 3 [((2 : ℚ), (2 : ℚ)), (1, 1)] = [1/3, 4/3] := by
    norm_num [-Prod.mk_one_one, TMM.w_vals, hfin, TMM.w_val]
  have hlen : (TMM.finite_genes 3 3 [((2 : ℚ), (2 : ℚ)), (1, 1)]).length = 2 := by
    rw [hfin]
    rfl
  have hk0 : TMM.keepQ (3/10) (1/20) 3 3 [((2 : ℚ), (2 : ℚ)), (1, 1)] 0 := by
    simp only [TMM.keepQ]
    rw [hmq, haq, hlen]
    norm_num [rankdata, List.countP_cons, List.countP_nil, List.getD, Int.toNat]
  have hk1 : TMM.keepQ (3/10) (1/20) 3 3 [((2 : ℚ), (2 : ℚ)), (1, 1)] 1 := by
    simp only [TMM.keepQ]
    rw [hmq, haq, hlen]
    norm_num [rankdata, List.countP_cons, List.countP_nil, List.getD, Int.toNat]
  have hden : TMM.factor_denQ (3/10) (1/20) 3 3 [((2 : ℚ), (2 : ℚ)), (1, 1)] = 15/4 := by
    unfold TMM.factor_denQ
    rw [hlen, hwv]
    norm_num [-Prod.mk_one_one, List.range_succ, hk0, hk1, List.getD]
  have hnum : TMM.factor_numQ (3/10) (1/20) 3 3 [((2 : ℚ), (2 : ℚ)), (1, 1)] = 0 := by
    unfold TMM.factor_numQ
    rw [hlen, hmq]
    norm_num [-Prod.mk_one_one, List.range_succ, List.getD]
  rw [TMM.sample_factor_char, hden, hnum]
  norm_num

lemma eval9_s1 : TMM.sample_factor (3/10) (1/20) 3 3 [((1 : ℚ), (2 : ℚ)), (2, 1)] = some 1 := by
  have hfin : TMM.finite_genes 3 3 [((1 : ℚ), (2 : ℚ)), (2, 1)] = [(1, 2), (2, 1)] := by
    norm_num [-Prod.mk_one_one, TMM.finite_genes, TMM.finite_gene, List.filter_cons]
  have hmq : TMM.m_quots 3 3 [((1 : ℚ), (2 : ℚ)), (2, 1)] = [1/2, 2] := by
    norm_num [-Prod.mk_one_one, TMM.m_quots, hfin, TMM.m_quot]
  have haq : TMM.a_prods 3 3 [((1 : ℚ), (2 : ℚ)), (2, 1)] = [2/9, 2/9] := by
    norm_num [-Prod.mk_one_one, TMM.a_prods, hfin, TMM.a_prod]
  have hwv : TMM.w_vals 3 3 [((1 : ℚ), (2 : ℚ)), (2, 1)] = [5/6, 5/6] := by
    norm_num [-Prod.mk_one_one, TMM.w_vals, hfin, TMM.w_val]
  have hlen : (TMM.finite_genes 3 3 [((1 : ℚ), (2 : ℚ)), (2, 1)]).length = 2 := by
    rw [hfin]
    rfl
  have hk0 : TMM.keepQ (3/10) (1/20) 3 3 [((1 : ℚ), (2 : ℚ)), (2, 1)] 0 := by
    simp only [TMM.keepQ]
    rw [hmq, haq, hlen]
    norm_num [rankdata, List.countP_cons, List.countP_nil, List.getD, Int.toNat]
  have hk1 : TMM.keepQ (3/10) (1/20) 3 3 [((1 : ℚ), (2 : ℚ)), (2, 1)] 1 := by
    simp only [TMM.keepQ]
    rw [hmq, haq, hlen]
    norm_num [rankdata, List.countP_cons, List.countP_nil, List.getD, Int.toNat]
  have hden : TMM.factor_denQ (3/10) (1/20) 3 3 [((1 : ℚ), (2 : ℚ)), (2, 1)] = 12/5 := by
    unfold TMM.factor_denQ
    rw [hlen, hwv]
    norm_num [-Prod.mk_one_one, List.range_succ, hk0, hk1, List.getD]
  have hnum : TMM.factor_numQ (3/10) (1/20) 3 3 [((1 : ℚ), (2 : ℚ)), (2, 1)] = 0 := by
    unfold TMM.factor_numQ
    rw [hlen, hmq, hwv]
    norm_num [-Prod.mk_one_one, List.range_succ, hk0, hk1, List.getD]
    rw [show ((1 : ℝ)/2) = ((2 : ℝ))⁻¹ by norm_num, Real.logb_inv,
      Real.logb_self_eq_one (by norm_num : (1 : ℝ) < 2)]
    norm_num
  rw [TMM.sample_factor_char, hden, hnum]
  norm_num

lemma eval9_s1' : TMM.sample_factor (3/10) (1/20) 6 3 [((2 : ℚ), (2 : ℚ)), (4, 1)] =
    some ((2 : ℝ) ^ (-(1/5) : ℝ)) := by
  have hfin : TMM.finite_genes 6 3 [((2 : ℚ), (2 : ℚ)), (4, 1)] = [(2, 2), (4, 1)] := by
    norm_num [-Prod.mk_one_one, TMM.finite_genes, TMM.finite_gene, List.filter_cons]
  have hmq : TMM.m_quots 6 3 [((2 : ℚ), (2 : ℚ)), (4, 1)] = [1/2, 2] := by
    norm_num [-Prod.mk_one_one, TMM.m_quots, hfin, TMM.m_quot]
  have haq : TMM.a_prods 6 3 [((2 : ℚ), (2 : ℚ)), (4, 1)] = [2/9, 2/9] := by
    norm_num [-Prod.mk_one_one, TMM.a_prods, hfin, TMM.a_prod]
  have hwv : TMM.w_vals 6 3 [((2 : ℚ), (2 : ℚ)), (4, 1)] = [1/2, 3/4] := by
    norm_num [-Prod.mk_one_one, TMM.w_vals, hfin, TMM.w_val]
  have hlen : (TMM.finite_genes 6 3 [((2 : ℚ), (2 : ℚ)), (4, 1)]).length = 2 := by
    rw [hfin]
    rfl
  have hk0 : TMM.keepQ (3/10) (1/20) 6 3 [((2 : ℚ), (2 : ℚ)), (4, 1)] 0 := by
    simp only [TMM.keepQ]
    rw [hmq, haq, hlen]
    norm_num [rankdata, List.countP_cons, List.countP_nil, List.getD, Int.toNat]
  have hk1 : TMM.keepQ (3/10) (1/20) 6 3 [((2 : ℚ), (2 : ℚ)), (4, 1)] 1 := by
    simp only [TMM.keepQ]
    rw [hmq, haq, hlen]
    norm_num [rankdata, List.countP_cons, List.countP_nil, List.getD, Int.toNat]
  have hden : TMM.factor_denQ (3/10) (1/20) 6 3 [((2 : ℚ), (2 : ℚ)), (4, 1)] = 10/3 := by
    unfold TMM.factor_denQ
    rw [hlen, hwv]
    norm_num [-Prod.mk_one_one, List.range_succ, hk0, hk1, List.getD]
  have hnum : TMM.factor_numQ (3/10) (1/20) 6 3 [((2 : ℚ), (2 : ℚ)), (4, 1)] = -(2/3) := by
    unfold TMM.factor_numQ
    rw [hlen, hmq, hwv]
    norm_num [-Prod.mk_one_one, List.range_succ, hk0, hk1, List.getD]
    rw [show ((1 : ℝ)/2) = ((2 : ℝ))⁻¹ by norm_num, Real.logb_inv,
      Real.logb_self_eq_one (by norm_num : (1 : ℝ) < 2)]
    norm_num
  rw [TMM.sample_factor_char, hden, hnum]
  norm_num

lemma eval9_gnf : TMM._get_norm_factors (3/10) (1/20) [2, 1] [[2, 1], [1, 2]] =
    [some 1, some 1] := by
  unfold TMM._get_norm_factors
  rw [eval9_rm]
  simp only [List.map_cons, List.map_nil]
  rw [show library_size [(2 : ℚ), 1] = 3 by norm_num [library_size],
    show library_size [(1 : ℚ), 2] = 3 by norm_num [library_size]]
  rw [show ([(2 : ℚ), 1].zip [(2 : ℚ), 1]) = [((2 : ℚ), (2 : ℚ)), (1, 1)] from rfl,
    show ([(1 : ℚ), 2].zip [(2 : ℚ), 1]) = [((1 : ℚ), (2 : ℚ)), (2, 1)] from rfl,
    eval9_s0, eval9_s1]

lemma eval9_gnf' : TMM._get_norm_factors (3/10) (1/20) [2, 1] [[2, 1], [2, 4]] =
    [some 1, some ((2 : ℝ) ^ (-(1/5) : ℝ))] := by
  unfold TMM._get_norm_factors
  rw [eval9_rm']
  simp only [List.map_cons, List.map_nil]
  rw [show library_size [(2 : ℚ), 1] = 3 by norm_num [library_size],
    show library_size [(2 : ℚ), 4] = 6 by norm_num [library_size]]
  rw [show ([(2 : ℚ), 1].zip [(2 : ℚ), 1]) = [((2 : ℚ), (2 : ℚ)), (1, 1)] from rfl,
    show ([(2 : ℚ), 4].zip [(2 : ℚ), 1]) = [((2 : ℚ), (2 : ℚ)), (4, 1)] from rfl,
    eval9_s0, eval9_s1']

lemma eval9_fitgm : (TMM.fit (3/10) (1/20) [[2, 1], [1, 2]]).geometric_mean_ = some 1 := by
  have h0 : (TMM.fit (3/10) (1/20) [[2, 1], [1, 2]]).geometric_mean_ =
      gmeanOR (TMM._get_norm_factors (3/10) (1/20)
        ((remove_zero_genes [[2, 1], [1, 2]]).getD
          (TMM._get_ref_index (remove_zero_genes [[2, 1], [1, 2]])) [])
        (remove_zero_genes [[2, 1], [1, 2]])) := rfl
  rw [h0, eval9_rm, eval9_refidx]
  rw [show ([[(2 : ℚ), 1], [1, 2]].getD 0 []) = [2, 1] from rfl, eval9_gnf]
  unfold gmeanOR
  rw [show allSome [some (1 : ℝ), some 1] = some [1, 1] from rfl]
  simp only [Option.map_some']
  unfold gmeanR
  norm_num

lemma eval9_fitgm' : (TMM.fit (3/10) (1/20) [[2, 1], [2, 4]]).geometric_mean_ =
    some ((2 : ℝ) ^ (-(1/10) : ℝ)) := by
  have h0 : (TMM.fit (3/10) (1/20) [[2, 1], [2, 4]]).geometric_mean_ =
      gmeanOR (TMM._get_norm_factors (3/10) (1/20)
        ((remove_zero_genes [[2, 1], [2, 4]]).getD
          (TMM._get_ref_index (remove_zero_genes [[2, 1], [2, 4]])) [])
        (remove_zero_genes [[2, 1], [2, 4]])) := rfl
  rw [h0, eval9_rm', eval9_refidx']
  rw [show ([[(2 : ℚ), 1], [2, 4]].getD 0 []) = [2, 1] from rfl, eval9_gnf']
  unfold gmeanOR
  rw [show allSome [some (1 : ℝ), some ((2 : ℝ) ^ (-(1/5) : ℝ))] =
    some [1, (2 : ℝ) ^ (-(1/5) : ℝ)] from rfl]
  simp only [Option.map_some']
  unfold gmeanR
  simp only [List.prod_cons, List.prod_nil, List.length_cons, List.length_nil, one_mul,
    mul_one]
  rw [← Real.rpow_mul (by norm_num : (0 : ℝ) ≤ 2)]
  norm_num

lemma eval9_factors' : TMM.get_norm_factors (TMM.fit (3/10) (1/20) [[2, 1], [2, 4]])
    [[2, 1], [2, 4]] =
    [some ((2 : ℝ) ^ ((1/10) : ℝ)), some ((2 : ℝ) ^ (-(1/10) : ℝ))] := by
  have hgm : (2 : ℝ) ^ (-(1/10) : ℝ) ≠ 0 :=
    ne_of_gt (Real.rpow_pos_of_pos (by norm_num) _)
  unfold TMM.get_norm_factors
  rw [show (TMM.fit (3/10) (1/20) [[2, 1], [2, 4]]).m_trim = 3/10 from rfl,
    show (TMM.fit (3/10) (1/20) [[2, 1], [2, 4]]).a_trim = 1/20 from rfl,
    eval9_ref', eval9_fitgm', eval9_gnf']
  simp only [List.map_cons, List.map_nil, divOO, hgm, if_false]
  have h1 : (1 : ℝ) / (2 : ℝ) ^ (-(1/10) : ℝ) = (2 : ℝ) ^ ((1/10) : ℝ) := by
    rw [one_div, ← Real.rpow_neg (by norm_num : (0 : ℝ) ≤ 2)]
    norm_num
  have h2 : (2 : ℝ) ^ (-(1/5) : ℝ) / (2 : ℝ) ^ (-(1/10) : ℝ) = (2 : ℝ) ^ (-(1/10) : ℝ) := by
    rw [← Real.rpow_sub (by norm_num : (0 : ℝ) < 2)]
    norm_num
  rw [h1, h2]

lemma eval9_factors : TMM.get_norm_factors (TMM.fit (3/10) (1/20) [[2, 1], [1, 2]])
    [[2, 1], [1, 2]] = [some 1, some 1] := by
  unfold TMM.get_norm_factors
  rw [show (TMM.fit (3/10) (1/20) [[2, 1], [1, 2]]).m_trim = 3/10 from rfl,
    show (TMM.fit (3/10) (1/20) [[2, 1], [1, 2]]).a_trim = 1/20 from rfl,
    eval9_ref, eval9_fitgm, eval9_gnf]
  simp [divOO]

/-- Counterexample to C9 as stated for TMM: doubling every count of the
second sample of `[[2,1],[1,2]]` (giving `[[2,1],[2,4]]`) leaves ratios,
reference and keep masks unchanged but changes the variance weights, and
with them the sample's TMM normalization factor (from 1 to
`2 ^ (-1/10)`). -/
theorem C9_counterexample :
    (TMM.get_norm_factors (TMM.fit (3/10) (1/20) (scaleRow [[2, 1], [1, 2]] 1))
      (scaleRow [[2, 1], [1, 2]] 1)).getD 1 none ≠
    (TMM.get_norm_factors (TMM.fit (3/10) (1/20) [[2, 1], [1, 2]]) [[2, 1], [1, 2]]).getD 1
      none := by
  have hscale : scaleRow [[2, 1], [1, 2]] 1 = [[2, 1], [2, 4]] := by
    norm_num [scaleRow, List.getD]
  rw [hscale, eval9_factors', eval9_factors]
  simp only [List.getD, List.getElem?_cons_succ, List.getElem?_cons_zero, Option.getD_some]
  intro h
  have hlt : (2 : ℝ) ^ (-(1/10) : ℝ) < 1 :=
    Real.rpow_lt_one_of_one_lt_of_neg (by norm_num) (by norm_num)
  rw [Option.some.inj h] at hlt
  exact lt_irrefl 1 hlt

/-! Scale invariance of the UQ pipeline: doubling one sample's row doubles
its library size and leaves the factors and the transform unchanged. -/

lemma sum_map_double : ∀ (l : List ℚ), (l.map (fun x => 2 * x)).sum = 2 * l.sum := by
  intro l
  induction l with
  | nil => simp
  | cons a t ih =>
      rw [List.map_cons, List.sum_cons, List.sum_cons, ih]
      ring

lemma library_size_map_double (l : List ℚ) :
    library_size (l.map (fun x => 2 * x)) = 2 * library_size l := by
  unfold library_size
  exact sum_map_double l

lemma getD_map_two : ∀ (l : List ℚ) (j : ℕ),
    (l.map (fun x => 2 * x)).getD j 0 = 2 * l.getD j 0 := by
  intro l
  induction l with
  | nil => intro j; simp [List.getD]
  | cons a t ih =>
      intro j
      cases j with
      | zero => rfl
      | succ k =>
          simp only [List.map_cons, List.getD_cons_succ]
          exact ih k

lemma map_set_getD {α β : Type} (f : α → β) (d : α) :
    ∀ (l : List α) (i : ℕ), (l.map f).set i (f (l.getD i d)) = l.map f := by
  intro l
  induction l with
  | nil => intro i; rfl
  | cons a t ih =>
      intro i
      cases i with
      | zero => rfl
      | succ k =>
          rw [List.getD_cons_succ]
          show f a :: ((t.map f).set k (f (t.getD k d))) = f a :: t.map f
          rw [ih k]

lemma sum_set_q : ∀ (l : List ℚ) (i : ℕ) (a : ℚ), i < l.length →
    (l.set i a).sum = l.sum - l.getD i 0 + a := by
  intro l
  induction l with
  | nil => intro i a h; simp at h
  | cons x t ih =>
      intro i a h
      cases i with
      | zero =>
          simp only [List.set, List.sum_cons, List.getD_cons_zero]
          ring
      | succ k =>
          rw [List.getD_cons_succ]
          show (x :: t.set k a).sum = (x :: t).sum - t.getD k 0 + a
          rw [List.sum_cons, List.sum_cons,
            ih k a (Nat.lt_of_succ_lt_succ (by simpa using h))]
          ring

lemma getD_nonneg (r : List ℚ) (h : ∀ x ∈ r, 0 ≤ x) (j : ℕ) : 0 ≤ r.getD j 0 := by
  by_cases hj : j < r.length
  · rw [List.getD_eq_getElem r 0 hj]
    exact h _ (r.getElem_mem hj)
  · rw [List.getD_eq_default r 0 (Nat.le_of_not_lt hj)]

lemma getD_le_sum (l : List ℚ) (hl : ∀ x ∈ l, 0 ≤ x) (i : ℕ) : l.getD i 0 ≤ l.sum := by
  by_cases h : i < l.length
  · rw [List.getD_eq_getElem l 0 h]
    exact List.single_le_sum hl _ (l.getElem_mem h)
  · rw [List.getD_eq_default l 0 (Nat.le_of_not_lt h)]
    exact List.sum_nonneg hl

lemma getD_map_row (X : Mat) (i j : ℕ) (hi : i < X.length) :
    (X.map (fun r => r.getD j 0)).getD i 0 = (X.getD i []).getD j 0 := by
  rw [List.getD_eq_getElem _ 0 (by simpa using hi), List.getElem_map,
    List.getD_eq_getElem X [] hi]

lemma colSum_scaleRow (X : Mat) (i : ℕ) (hi : i < X.length) (j : ℕ) :
    colSum (scaleRow X i) j = colSum X j + (X.getD i []).getD j 0 := by
  unfold colSum scaleRow
  rw [List.map_set, sum_set_q _ i _ (by simpa using hi), getD_map_two, getD_map_row X i j hi]
  ring

lemma nCols_scaleRow (X : Mat) (i : ℕ) : nCols (scaleRow X i) = nCols X := by
  unfold nCols scaleRow
  cases X with
  | nil => rfl
  | cons r t =>
      cases i with
      | zero => simp [List.getD]
      | succ k => rfl

lemma keptGenes_scaleRow (X : Mat) (i : ℕ) (hi : i < X.length)
    (hnn : ∀ r ∈ X, ∀ x ∈ r, 0 ≤ x) :
    keptGenes (scaleRow X i) = keptGenes X := by
  unfold keptGenes
  rw [nCols_scaleRow]
  apply List.filter_congr
  intro j _
  have hrowmem : X.getD i [] ∈ X := by
    rw [List.getD_eq_getElem X [] hi]
    exact X.getElem_mem hi
  have hrow : 0 ≤ (X.getD i []).getD j 0 := getD_nonneg _ (hnn _ hrowmem) j
  have hterm : (X.getD i []).getD j 0 ≤ colSum X j := by
    unfold colSum
    rw [← getD_map_row X i j hi]
    apply getD_le_sum
    intro x hx
    rcases List.mem_map.mp hx with ⟨r, hr, hxr⟩
    rw [← hxr]
    exact getD_nonneg r (hnn r hr) j
  rw [colSum_scaleRow X i hi j]
  simp only [decide_eq_decide]
  constructor
  · intro h
    linarith
  · intro h
    linarith

lemma rm_scaleRow (X : Mat) (i : ℕ) (hi : i < X.length)
    (hnn : ∀ r ∈ X, ∀ x ∈ r, 0 ≤ x) :
    remove_zero_genes (scaleRow X i) = scaleRow (remove_zero_genes X) i := by
  unfold remove_zero_genes
  rw [keptGenes_scaleRow X i hi hnn]
  conv_lhs => unfold scaleRow
  rw [List.map_set]
  conv_rhs => unfold scaleRow
  congr 1
  have h1 : (X.map (fun r => (keptGenes X).map (fun j => r.getD j 0))).getD i [] =
      (keptGenes X).map (fun j => (X.getD i []).getD j 0) := by
    rw [List.getD_eq_getElem _ [] (by simpa using hi), List.getElem_map,
      List.getD_eq_getElem X [] hi]
  rw [h1, List.map_map]
  apply List.map_congr_left
  intro j _
  simp only [Function.comp]
  exact getD_map_two _ j

lemma sortQ_map_double (l : List ℚ) :
    sortQ (l.map (fun x => 2 * x)) = (sortQ l).map (fun x => 2 * x) := by
  exact List.eq_of_perm_of_sorted
    ((List.perm_insertionSort _ _).trans ((List.perm_insertionSort _ l).map _).symm)
    (List.sorted_insertionSort _ _)
    (List.Pairwise.map _
      (fun a b hab => (mul_le_mul_left (by norm_num : (0 : ℚ) < 2)).mpr hab)
      (List.sorted_insertionSort _ l))

lemma p75_map_double (l : List ℚ) :
    scoreatpercentile75 (l.map (fun x => 2 * x)) = 2 * scoreatpercentile75 l := by
  simp only [scoreatpercentile75, sortQ_map_double, List.length_map, getD_map_two]
  split_ifs with h
  · rfl
  · ring

lemma fdiv_double (a b : ℚ) : fdiv (2 * a) (2 * b) = fdiv a b := by
  unfold fdiv
  by_cases hb : b = 0
  · simp [hb]
  · rw [if_neg hb, if_neg (by simpa using hb)]
    rw [mul_div_mul_left a b (by norm_num : (2 : ℚ) ≠ 0)]

lemma raw_factors_scaleRow (X : Mat) (i : ℕ) (hi : i < X.length)
    (hnn : ∀ r ∈ X, ∀ x ∈ r, 0 ≤ x) :
    UQ.raw_factors (scaleRow X i) = UQ.raw_factors X := by
  unfold UQ.raw_factors
  rw [rm_scaleRow X i hi hnn]
  conv_lhs => unfold scaleRow
  rw [List.map_set]
  have hfix : fdiv
      (scoreatpercentile75 (((remove_zero_genes X).getD i []).map (fun x => 2 * x)))
      (library_size (((remove_zero_genes X).getD i []).map (fun x => 2 * x))) =
      fdiv (scoreatpercentile75 ((remove_zero_genes X).getD i []))
      (library_size ((remove_zero_genes X).getD i [])) := by
    rw [p75_map_double, library_size_map_double]
    exact fdiv_double _ _
  rw [hfix]
  exact map_set_getD _ [] (remove_zero_genes X) i

lemma uq_fit_scaleRow (X : Mat) (i : ℕ) (hi : i < X.length)
    (hnn : ∀ r ∈ X, ∀ x ∈ r, 0 ≤ x) :
    UQ.fit (scaleRow X i) = UQ.fit X := by
  unfold UQ.fit
  rw [raw_factors_scaleRow X i hi hnn]

lemma uq_gnf_scaleRow (X : Mat) (i : ℕ) (hi : i < X.length)
    (hnn : ∀ r ∈ X, ∀ x ∈ r, 0 ≤ x) :
    UQ.get_norm_factors (UQ.fit (scaleRow X i)) (scaleRow X i) =
      UQ.get_norm_factors (UQ.fit X) X := by
  unfold UQ.get_norm_factors
  rw [uq_fit_scaleRow X i hi hnn, raw_factors_scaleRow X i hi hnn]

lemma cpmEntry_double (x L : ℚ) (f : Option ℝ) :
    UQ.cpmEntry (2 * x) (2 * L) f = UQ.cpmEntry x L f := by
  cases f with
  | none => rfl
  | some fv =>
      simp only [UQ.cpmEntry]
      have hiff : ((2 * L : ℚ) : ℝ) * fv = 0 ↔ (L : ℝ) * fv = 0 := by
        push_cast
        rw [mul_assoc]
        simp
      by_cases h : (L : ℝ) * fv = 0
      · rw [if_pos h, if_pos (hiff.mpr h)]
      · rw [if_neg h, if_neg (fun hc => h (hiff.mp hc))]
        congr 1
        push_cast
        rw [mul_assoc, mul_div_mul_left _ _ (by norm_num : (2 : ℝ) ≠ 0)]

lemma uq_row_double (r : List ℚ) (f : Option ℝ) :
    (r.map (fun x => 2 * x)).map
      (fun x => UQ.cpmEntry x (library_size (r.map (fun x => 2 * x))) f) =
    r.map (fun x => UQ.cpmEntry x (library_size r) f) := by
  rw [List.map_map]
  apply List.map_congr_left
  intro x _
  simp only [Function.comp]
  rw [library_size_map_double]
  exact cpmEntry_double x (library_size r) f

lemma map_zip_set_congr {α β γ : Type} (g : α → β → γ) :
    ∀ (l : List α) (m : List β) (i : ℕ) (a : α),
    (∀ b, g a b = g (l.getD i a) b) →
    ((l.set i a).zip m).map (fun p => g p.1 p.2) = (l.zip m).map (fun p => g p.1 p.2) := by
  intro l
  induction l with
  | nil => intro m i a _; rfl
  | cons x t ih =>
      intro m i a ha
      cases m with
      | nil => cases i <;> rfl
      | cons b mt =>
          cases i with
          | zero =>
              simp only [List.set, List.zip_cons_cons, List.map_cons]
              rw [ha b]
              rfl
          | succ k =>
              simp only [List.set, List.zip_cons_cons, List.map_cons]
              congr 1
              exact ih mt k a (fun b' => by
                have hb := ha b'
                rwa [List.getD_cons_succ] at hb)

lemma uq_transform_scaleRow (X : Mat) (i : ℕ) (hi : i < X.length)
    (hnn : ∀ r ∈ X, ∀ x ∈ r, 0 ≤ x) :
    UQ.transform (UQ.fit (scaleRow X i)) (scaleRow X i) = UQ.transform (UQ.fit X) X := by
  unfold UQ.transform
  rw [uq_gnf_scaleRow X i hi hnn]
  conv_lhs => rw [scaleRow]
  refine map_zip_set_congr
    (fun r f => r.map (fun x => UQ.cpmEntry x (library_size r) f)) X _ i _ ?_
  intro f
  have hgd : X.getD i ((X.getD i []).map (fun x => 2 * x)) = X.getD i [] := by
    rw [List.getD_eq_getElem X _ hi, List.getD_eq_getElem X [] hi]
  rw [hgd]
  exact uq_row_double (X.getD i []) f

lemma scaleRow_getD_self (X : Mat) (i : ℕ) (hi : i < X.length) :
    (scaleRow X i).getD i [] = (X.getD i []).map (fun x => 2 * x) := by
  unfold scaleRow
  rw [List.getD_eq_getElem _ [] (by simpa using hi)]
  exact List.getElem_set_self _

/-- C9 (amended): doubling every count of one sample (row `i`, with all
counts in the matrix nonnegative) doubles that sample's library size and,
for the UQ estimator fitted and evaluated on the scaled data, leaves the
whole normalization-factor vector and the whole transformed output
unchanged (between_sample.py lines 73-92, 94-106, 127-142).  The same
invariance fails for TMM, whose variance weights depend on the absolute
counts, not only on the count ratios. -/
theorem C9_uq_scale_invariance (X : Mat) (i : ℕ) (hi : i < X.length)
    (hnn : ∀ r ∈ X, ∀ x ∈ r, 0 ≤ x) :
    library_size ((scaleRow X i).getD i []) = 2 * library_size (X.getD i []) ∧
    UQ.get_norm_factors (UQ.fit (scaleRow X i)) (scaleRow X i) =
      UQ.get_norm_factors (UQ.fit X) X ∧
    UQ.transform (UQ.fit (scaleRow X i)) (scaleRow X i) = UQ.transform (UQ.fit X) X := by
  refine ⟨?_, uq_gnf_scaleRow X i hi hnn, uq_transform_scaleRow X i hi hnn⟩
  rw [scaleRow_getD_self X i hi]
  exact library_size_map_double _

/-- Witness for C9 at the matrix `[[1, 2], [1, 2]]`, doubling sample 1. -/
theorem C9_uq_scale_invariance_witness :
    (1 < ([[1, 2], [1, 2]] : Mat).length ∧
      (∀ r ∈ ([[1, 2], [1, 2]] : Mat), ∀ x ∈ r, 0 ≤ x)) ∧
    (library_size ((scaleRow [[1, 2], [1, 2]] 1).getD 1 []) =
        2 * library_size (([[1, 2], [1, 2]] : Mat).getD 1 []) ∧
      UQ.get_norm_factors (UQ.fit (scaleRow [[1, 2], [1, 2]] 1))
          (scaleRow [[1, 2], [1, 2]] 1) =
        UQ.get_norm_factors (UQ.fit [[1, 2], [1, 2]]) [[1, 2], [1, 2]] ∧
      UQ.transform (UQ.fit (scaleRow [[1, 2], [1, 2]] 1)) (scaleRow [[1, 2], [1, 2]] 1) =
        UQ.transform (UQ.fit [[1, 2], [1, 2]]) [[1, 2], [1, 2]]) :=
  ⟨⟨by norm_num, by norm_num⟩,
    C9_uq_scale_invariance [[1, 2], [1, 2]] 1 (by norm_num) (by norm_num)⟩

/-- Witness for C10 at a concrete store: cell 0 holds the frozen reference
row `[1, 2]`, cell 1 the caller's 2-sample matrix. -/
theorem C10_tmm_transform_no_mutation_witness :
    readH (TMM.transform_heap (3/10) (1/20) (some 1)
        [[[some 1, some 2]], [[some 2, some 4], [some 3, some 1]]] 0 1).1 0 =
      readH [[[some 1, some 2]], [[some 2, some 4], [some 3, some 1]]] 0 ∧
    readH (TMM.transform_heap (3/10) (1/20) (some 1)
        [[[some 1, some 2]], [[some 2, some 4], [some 3, some 1]]] 0 1).1 1 =
      readH [[[some 1, some 2]], [[some 2, some 4], [some 3, some 1]]] 1 ∧
    (TMM.get_norm_factors_heap (3/10) (1/20) (some 1)
        (TMM.transform_heap (3/10) (1/20) (some 1)
          [[[some 1, some 2]], [[some 2, some 4], [some 3, some 1]]] 0 1).1 0 1).2 =
      (TMM.get_norm_factors_heap (3/10) (1/20) (some 1)
        [[[some 1, some 2]], [[some 2, some 4], [some 3, some 1]]] 0 1).2 ∧
    (TMM.transform_heap (3/10) (1/20) (some 1)
        (TMM.transform_heap (3/10) (1/20) (some 1)
          [[[some 1, some 2]], [[some 2, some 4], [some 3, some 1]]] 0 1).1 0 1).2 =
      (TMM.transform_heap (3/10) (1/20) (some 1)
        [[[some 1, some 2]], [[some 2, some 4], [some 3, some 1]]] 0 1).2 :=
  C10_tmm_transform_no_mutation (3/10) (1/20) (some 1)
    [[[some 1, some 2]], [[some 2, some 4], [some 3, some 1]]] 0 1
    (by decide) (by decide)

end RNAnorm
